import Mathlib

/-!
Shallow embedding of the etf-eda core pipeline:

* `MissingData.clean` from `research/ml_pipeline/src/preprocessing/preprocessing.py`
* `DailyOhlcvTransformer.transform` from
  `research/ml_pipeline/src/transformation/transformers/ohlcv.py`

A pandas `DataFrame` is modelled as a `Table`: a list of typed columns and a
list of rows, each row a list of optional cells (`none` is the null marker,
pandas `NaN`/`NaT`).  Machine floats are modelled by exact rationals (an executable
rational type `Q`) extended with the IEEE special values the code can produce (`F.nan`, `F.inf`,
`F.neginf`); the two irrational-valued feature families (rolling standard
deviations and logarithms) carry their exact argument in dedicated
constructors (`F.sqr`, `F.lg`), which never re-enter arithmetic in the
embedded feature set.

In-place mutation discipline (the `df = df.copy()` lines) is modelled by a
small state machine `PSt` that tracks whether the engine's working frame is
still aliased to the caller's frame: `rebind` models `df = <new frame>`,
`inplace` models `df[col] = ...` column assignment on the current object.
-/

/-- Executable exact rational: a numerator and a positive denominator kept
in lowest terms by the smart constructor `Q.norm`, giving kernel-reducible
field operations (structural equality coincides with value equality on the
canonical forms every operation produces). -/
structure Q where
  n : Int
  d : ℕ
  deriving DecidableEq

/-- Canonical fraction `n / d`: sign on the numerator, lowest terms; total,
with the never-produced zero denominator mapped to `0`. -/
def Q.norm (n d : Int) : Q :=
  if d = 0 then ⟨0, 1⟩
  else
    let n2 := if d < 0 then -n else n
    let d2 := d.natAbs
    let g := Nat.gcd n2.natAbs d2
    ⟨n2 / (g : Int), d2 / g⟩

instance (nn : ℕ) : OfNat Q nn := ⟨⟨(nn : Int), 1⟩⟩

/-- Embedding of the machine naturals (row counts, window widths). -/
def Q.ofNat (m : ℕ) : Q := ⟨(m : Int), 1⟩

/-- Rational addition. -/
def Q.add (a b : Q) : Q := Q.norm (a.n * b.d + b.n * a.d) (a.d * b.d)

/-- Rational negation (canonical form is preserved). -/
def Q.negQ (a : Q) : Q := ⟨-a.n, a.d⟩

/-- Rational subtraction. -/
def Q.sub (a b : Q) : Q := Q.add a (Q.negQ b)

/-- Rational multiplication. -/
def Q.mul (a b : Q) : Q := Q.norm (a.n * b.n) (a.d * b.d)

/-- Rational division (division by zero yields `0`; every division the
pipeline performs is guarded against a zero denominator beforehand). -/
def Q.div (a b : Q) : Q := Q.norm (a.n * b.d) ((a.d : Int) * b.n)

/-- Order by cross multiplication (denominators are positive). -/
def Q.le (a b : Q) : Prop := a.n * b.d ≤ b.n * a.d

/-- Strict order by cross multiplication. -/
def Q.lt (a b : Q) : Prop := a.n * b.d < b.n * a.d

/-- Absolute value (canonical form is preserved). -/
def Q.absQ (a : Q) : Q := ⟨(a.n.natAbs : Int), a.d⟩

instance : Add Q := ⟨Q.add⟩

instance : Neg Q := ⟨Q.negQ⟩

instance : Sub Q := ⟨Q.sub⟩

instance : Mul Q := ⟨Q.mul⟩

instance : Div Q := ⟨Q.div⟩

instance : LE Q := ⟨Q.le⟩

instance : LT Q := ⟨Q.lt⟩

instance (a b : Q) : Decidable (a ≤ b) :=
  inferInstanceAs (Decidable (a.n * b.d ≤ b.n * a.d))

instance (a b : Q) : Decidable (a < b) :=
  inferInstanceAs (Decidable (a.n * b.d < b.n * a.d))

instance : Max Q := ⟨fun a b => if a ≤ b then b else a⟩

instance : Min Q := ⟨fun a b => if a ≤ b then a else b⟩

/-- Sum of a list of rationals. -/
def qsum (l : List Q) : Q := l.foldl Q.add 0

/-- Codepoint-lexicographic strict order on codepoint lists. -/
def natListLt : List ℕ → List ℕ → Bool
  | [], [] => false
  | [], _ :: _ => true
  | _ :: _, [] => false
  | a :: as2, b :: bs => a < b || (a == b && natListLt as2 bs)

/-- Strict string comparison by codepoints (what Python string sorting
uses; Lean's builtin byte-based `String` order is kernel-opaque, while this
one evaluates). -/
def strLt (a b : String) : Bool :=
  natListLt (a.data.map Char.toNat) (b.data.map Char.toNat)

/-- Stable insertion step: `x` goes before the first element it compares
`le` to, so equal keys keep their original relative order. -/
def insertOrd (le : α → α → Bool) (x : α) : List α → List α
  | [] => [x]
  | y :: ys => if le x y then x :: y :: ys else y :: insertOrd le x ys

/-- Stable insertion sort (a kernel-reducible stand-in for the library
sort; on the unique sort keys of this pipeline every sorting algorithm
produces the same list). -/
def insSort (le : α → α → Bool) : List α → List α
  | [] => []
  | x :: xs => insertOrd le x (insSort le xs)

/-- Column dtype, as far as the pipeline inspects it (`select_dtypes`,
`np.issubdtype(..., np.datetime64)`). -/
inductive Dtype
  | numeric
  | text
  | datetime
  deriving DecidableEq

/-- One dataframe column: a name and a dtype. -/
structure Col where
  name : String
  dtype : Dtype
  deriving DecidableEq

/-- A scalar cell value: a string, an exact rational number, or a date
(encoded as a day count). -/
inductive CellVal
  | str (s : String)
  | num (q : Q)
  | date (d : Int)
  deriving DecidableEq

/-- A cell: `none` is the null marker (pandas `NaN`/`NaT`/`None`). -/
abbrev Cell := Option CellVal

/-- A dataframe: a typed column list and positional rows. -/
structure Table where
  cols : List Col
  rows : List (List Cell)
  deriving DecidableEq

/-- Positional cell access; positions beyond the stored row read as null. -/
def cellAt (r : List Cell) (i : ℕ) : Cell :=
  (r.get? i).getD none

/-- Index of the first column with the given name. -/
def Table.colIdx (t : Table) (n : String) : Option ℕ :=
  t.cols.findIdx? (fun c => c.name == n)

/-- Cell of a row in the named column. -/
def Table.cellOf (t : Table) (r : List Cell) (n : String) : Cell :=
  match t.colIdx n with
  | some i => cellAt r i
  | none => none

/-- Whether the named column is present. -/
def Table.hasCol (t : Table) (n : String) : Bool :=
  t.cols.any (fun c => c.name == n)

/-- `MissingData.group_col`. -/
def groupCol : String := "ticker"

/-- `MissingData.date_col`. -/
def dateCol : String := "date"

/-- `MissingData.price_cols`. -/
def priceCols : List String := ["open", "high", "low", "close"]

/-- `MissingData.volume_col`. -/
def volumeCol : String := "volume"

/-- `PriceImputePolicy = Literal["drop_partial", "ffill", "none"]`. -/
inductive PricePolicy
  | dropPartial
  | ffill
  | none
  deriving DecidableEq

/-- `Literal["median", "mean"]` numeric imputation statistic. -/
inductive NumImpute
  | median
  | mean
  deriving DecidableEq

/-- The `MissingData` engine configuration (its Python attributes). -/
structure MissingData where
  high_missing_threshold : Q := 1 / 5
  price_policy : PricePolicy := PricePolicy.dropPartial
  numeric_impute : NumImpute := NumImpute.median
  deriving DecidableEq

/-- Required columns of `MissingData._ensure_required_cols`:
`{group_col, date_col, *price_cols}` (volume is not required). -/
def requiredCleanCols : List String :=
  groupCol :: dateCol :: priceCols

/-- True when some required column of `clean` is absent. -/
def reqCleanMissing (t : Table) : Bool :=
  !(requiredCleanCols.all t.hasCol)

/-- `pd.to_datetime(cell, errors="coerce")`: already-a-date stays, anything
unparsable (the model treats strings and numbers as unparsable) becomes
null.  Null stays null (`NaT`). -/
def toDatetimeCell : Cell → Cell
  | some (CellVal.date d) => some (CellVal.date d)
  | _ => Option.none

/-- Replace column `i`'s dtype and map its cells. -/
def setColAt (t : Table) (i : ℕ) (dt : Dtype) (f : Cell → Cell) : Table :=
  { cols := t.cols.mapIdx (fun j c => if j == i then { c with dtype := dt } else c),
    rows := t.rows.map (fun r => r.mapIdx (fun j c => if j == i then f c else c)) }

/-- Lines 54-55: coerce the date column to datetime unless it already is. -/
def coerceDates (t : Table) : Table :=
  match t.colIdx dateCol with
  | some i =>
    if (t.cols.get? i).any (fun c => c.dtype == Dtype.datetime) then t
    else setColAt t i Dtype.datetime toDatetimeCell
  | Option.none => t

/-- Line 58: `df.dropna(subset=[group_col, date_col])`. -/
def dropKeyNa (t : Table) : Table :=
  { t with rows := t.rows.filter (fun r =>
      (t.cellOf r groupCol).isSome && (t.cellOf r dateCol).isSome) }

/-- Number of null cells a row contributes across the table's column count. -/
def nullCountRow (ncols : ℕ) (r : List Cell) : ℕ :=
  ((List.range ncols).filter (fun i => (cellAt r i).isNone)).length

/-- `df.isnull().sum().sum()`. -/
def Table.nullCount (t : Table) : ℕ :=
  (t.rows.map (nullCountRow t.cols.length)).sum

/-- `MissingData.missingness_ratio`: null cells over total cells, `0.0` on an
empty frame. -/
def missingness_ratio (t : Table) : Q :=
  if t.rows.length * t.cols.length = 0 then 0
  else Q.ofNat t.nullCount / Q.ofNat (t.rows.length * t.cols.length)

/-- Row has all four OHLC cells null ("no bar"). -/
def ohlcAllNa (t : Table) (r : List Cell) : Bool :=
  priceCols.all (fun c => (t.cellOf r c).isNone)

/-- Row has some OHLC cell null (partial bar). -/
def ohlcAnyNa (t : Table) (r : List Cell) : Bool :=
  priceCols.any (fun c => (t.cellOf r c).isNone)

/-- Lines 63-64: drop rows where all OHLC are missing. -/
def dropNoBar (t : Table) : Table :=
  { t with rows := t.rows.filter (fun r => !(ohlcAllNa t r)) }

/-- Lines 69-70 and 78: drop rows where any OHLC is missing
(`dropna(subset=price_cols)` is the same row predicate). -/
def dropPartialRows (t : Table) : Table :=
  { t with rows := t.rows.filter (fun r => !(ohlcAnyNa t r)) }

/-- Sort key: the ticker string of a row (well-typed tables hold strings
there; anything else sorts as the empty string). -/
def keyStr (t : Table) (r : List Cell) : String :=
  match t.cellOf r groupCol with
  | some (CellVal.str s) => s
  | _ => ""

/-- Sort key: the date of a row. -/
def keyDate (t : Table) (r : List Cell) : Int :=
  match t.cellOf r dateCol with
  | some (CellVal.date d) => d
  | _ => 0

/-- Lexicographic `(ticker, date)` comparison used by
`sort_values([group_col, date_col])`. -/
def rowLe (t : Table) (r1 r2 : List Cell) : Bool :=
  strLt (keyStr t r1) (keyStr t r2) ||
    (keyStr t r1 == keyStr t r2 && keyDate t r1 ≤ keyDate t r2)

/-- `df.sort_values([group_col, date_col])`, modelled as a stable
insertion sort;
`(ticker, date)` keys are unique by the ingestion precondition, so any
sorting algorithm agrees with this one. -/
def sortByKey (t : Table) : Table :=
  { t with rows := insSort (rowLe t) t.rows }

/-- Positions of the four price columns. -/
def priceIdxs (t : Table) : List ℕ :=
  priceCols.filterMap t.colIdx

/-- Forward-fill worker over rows already grouped contiguously by ticker
(the source applies it right after sorting): carries the last seen value of
each price column within the current ticker run. -/
def ffillGo (t : Table) (idxs : List ℕ) :
    Option String → List (ℕ × Cell) → List (List Cell) → List (List Cell)
  | _, _, [] => []
  | k, carry, r :: rs =>
    let k2 := keyStr t r
    let carry2 := if k == some k2 then carry else []
    let r2 := r.mapIdx (fun j c =>
      if idxs.contains j && c.isNone then (carry2.lookup j).getD Option.none else c)
    let carry3 := idxs.map (fun j => (j, cellAt r2 j))
    r2 :: ffillGo t idxs (some k2) carry3 rs

/-- Lines 74-77: `groupby(group_col, sort=False)[price_cols].ffill()`. -/
def ffillPrices (t : Table) : Table :=
  { t with rows := ffillGo t (priceIdxs t) Option.none [] t.rows }

/-- Lines 66-81: the partial-OHLC policy step, as a pure table function. -/
def applyPolicy (self : MissingData) (t : Table) : Table :=
  match self.price_policy with
  | PricePolicy.dropPartial => dropPartialRows t
  | PricePolicy.ffill => dropPartialRows (ffillPrices (sortByKey t))
  | PricePolicy.none => t

/-- Lines 86-89: protected columns in the strict branch (volume only when
present). -/
def protectedStrict (t : Table) : List String :=
  priceCols ++ [groupCol, dateCol] ++
    (if t.hasCol volumeCol then [volumeCol] else [])

/-- Per-column missing fraction `df[c].isna().mean()` (only compared when
rows exist; on an empty frame pandas compares `NaN >= thr`, which is false,
so the caller treats empty as "keep"). -/
def colMissFrac (t : Table) (i : ℕ) : Q :=
  if t.rows.length = 0 then 0
  else Q.ofNat (t.rows.filter (fun r => (cellAt r i).isNone)).length /
    Q.ofNat t.rows.length

/-- Keep only the columns (and their cells) satisfying the predicate. -/
def restrictCols (t : Table) (keep : ℕ → Col → Bool) : Table :=
  let idxs := (List.range t.cols.length).filter (fun i =>
    match t.cols.get? i with
    | some c => keep i c
    | Option.none => false)
  { cols := idxs.filterMap (fun i => t.cols.get? i),
    rows := t.rows.map (fun r => idxs.map (fun i => cellAt r i)) }

/-- Lines 91-97: drop every non-protected column whose own missingness is at
least the threshold (empty frames drop nothing: `NaN >= thr` is false). -/
def dropHighMissCols (self : MissingData) (t : Table) : Table :=
  restrictCols t (fun i c =>
    (protectedStrict t).contains c.name || t.rows.isEmpty ||
      colMissFrac t i < self.high_missing_threshold)

/-- `df.dropna()`: drop every row still containing any null. -/
def dropnaAll (t : Table) : Table :=
  { t with rows := t.rows.filter (fun r =>
      (List.range t.cols.length).all (fun i => (cellAt r i).isSome)) }

/-- Line 106: protected set of the normal branch (volume is *not* protected
there, so it counts as an imputable numeric column). -/
def protectedSix : List String :=
  priceCols ++ [groupCol, dateCol]

/-- Lines 107-108: numeric non-protected column positions. -/
def numColIdxs (t : Table) : List ℕ :=
  (List.range t.cols.length).filter (fun i =>
    match t.cols.get? i with
    | some c => c.dtype == Dtype.numeric && !(protectedSix.contains c.name)
    | Option.none => false)

/-- Lines 112-113: fill volume nulls with `0`. -/
def fillVolume0 (t : Table) : Table :=
  match t.colIdx volumeCol with
  | some i =>
    { t with rows := t.rows.map (fun r => r.mapIdx (fun j c =>
        if j == i && c.isNone then some (CellVal.num 0) else c)) }
  | Option.none => t

/-- Numeric values of column `i` within the ticker group `k`. -/
def colGroupNums (t : Table) (i : ℕ) (k : String) : List Q :=
  (t.rows.filter (fun r => keyStr t r == k)).filterMap (fun r =>
    match cellAt r i with
    | some (CellVal.num q) => some q
    | _ => Option.none)

/-- pandas `median` of the non-null values: middle element of the sorted
list, or the average of the two middles; null on an empty list. -/
def medianQ (l : List Q) : Option Q :=
  let s := insSort (fun a b => decide (a ≤ b)) l
  let n := s.length
  if n = 0 then Option.none
  else if n % 2 = 1 then s.get? (n / 2)
  else
    match s.get? (n / 2 - 1), s.get? (n / 2) with
    | some a, some b => some ((a + b) / 2)
    | _, _ => Option.none

/-- pandas `mean` of the non-null values; null on an empty list. -/
def meanQ (l : List Q) : Option Q :=
  if l.length = 0 then Option.none else some (qsum l / Q.ofNat l.length)

/-- Group imputation statistic of lines 118-121. -/
def groupStat (self : MissingData) (t : Table) (i : ℕ) (k : String) : Option Q :=
  match self.numeric_impute with
  | NumImpute.median => medianQ (colGroupNums t i k)
  | NumImpute.mean => meanQ (colGroupNums t i k)

/-- Line 123: `df[num_cols] = df[num_cols].fillna(fill_values)` with the
per-ticker statistic; a group with no observed value leaves the cell null. -/
def fillNumCols (self : MissingData) (t : Table) : Table :=
  let idxs := numColIdxs t
  { t with rows := t.rows.map (fun r => r.mapIdx (fun j c =>
      if idxs.contains j && c.isNone then
        match groupStat self t j (keyStr t r) with
        | some q => some (CellVal.num q)
        | Option.none => Option.none
      else c)) }

/-- String values of column `i` within the ticker group `k`. -/
def colGroupStrs (t : Table) (i : ℕ) (k : String) : List String :=
  (t.rows.filter (fun r => keyStr t r == k)).filterMap (fun r =>
    match cellAt r i with
    | some (CellVal.str s) => some s
    | _ => Option.none)

/-- pandas `Series.mode(dropna=True).iloc[0]`: the lexicographically smallest
value among those of maximal multiplicity (pandas sorts the modes); null on
an empty list. -/
def modeStr (l : List String) : Option String :=
  (l.foldl (fun acc v =>
      let c := l.count v
      match acc with
      | Option.none => some (v, c)
      | some (w, cw) =>
        if c > cw || (c == cw && v < w) then some (v, c) else some (w, cw))
    Option.none).map Prod.fst

/-- Lines 126-127: text columns other than the ticker column. -/
def catColIdxs (t : Table) : List ℕ :=
  (List.range t.cols.length).filter (fun i =>
    match t.cols.get? i with
    | some c => c.dtype == Dtype.text && c.name != groupCol
    | Option.none => false)

/-- Lines 129-134: per-ticker mode imputation of the text columns. -/
def fillCatCols (t : Table) : Table :=
  let idxs := catColIdxs t
  { t with rows := t.rows.map (fun r => r.mapIdx (fun j c =>
      if idxs.contains j && c.isNone then
        match modeStr (colGroupStrs t j (keyStr t r)) with
        | some s => some (CellVal.str s)
        | Option.none => Option.none
      else c)) }

/-- Aliasing state: the caller's frame, the engine's current frame, and
whether the two are still the same Python object. -/
structure PSt where
  caller : Table
  cur : Table
  aliased : Bool
  deriving DecidableEq

/-- `df = f(df)`: rebinds the local name to a fresh object. -/
def rebind (f : Table → Table) (s : PSt) : PSt :=
  { caller := s.caller, cur := f s.cur, aliased := false }

/-- `df[col] = ...`: mutates the current object in place, and therefore the
caller's frame too while still aliased. -/
def inplace (f : Table → Table) (s : PSt) : PSt :=
  { caller := if s.aliased then f s.caller else s.caller,
    cur := f s.cur,
    aliased := s.aliased }

/-- Lines 66-81 as engine steps: `drop_partial` rebinds; `ffill` rebinds to
the sorted frame, assigns the forward-filled price columns in place, then
rebinds to the null-dropped frame; `none` does nothing. -/
def policySteps (self : MissingData) (s : PSt) : PSt :=
  match self.price_policy with
  | PricePolicy.dropPartial => rebind dropPartialRows s
  | PricePolicy.ffill => rebind dropPartialRows (inplace ffillPrices (rebind sortByKey s))
  | PricePolicy.none => s

/-- Lines 85-102, the strict branch: drop high-missingness non-protected
columns, then drop every row still containing any null, and return. -/
def strictSteps (self : MissingData) (s : PSt) : PSt :=
  rebind dropnaAll (rebind (dropHighMissCols self) s)

/-- Lines 104-140, the normal branch: zero-fill volume, sort and impute the
numeric non-protected columns (when any), mode-impute the text columns, and
drop every row still containing any null. -/
def normalSteps (self : MissingData) (s : PSt) : PSt :=
  let numNonempty := !(numColIdxs s.cur).isEmpty
  let s1 := inplace fillVolume0 s
  let s2 := if numNonempty then inplace (fillNumCols self) (rebind sortByKey s1) else s1
  let s3 := inplace fillCatCols s2
  rebind dropnaAll s3

/-- `MissingData.clean`, lines 49-140, as the aliasing state machine: copy,
coerce dates in place, drop unrecoverable rows, record the global
missingness ratio, drop no-bar rows, apply the price policy, then take the
strict or the normal branch. -/
def MissingData.cleanSt (self : MissingData) (t : Table) : PSt :=
  let s0 : PSt := { caller := t, cur := t, aliased := true }
  let s1 := rebind id s0
  let s2 := inplace coerceDates s1
  let s3 := rebind dropKeyNa s2
  let miss := missingness_ratio s3.cur
  let s4 := rebind dropNoBar s3
  let s5 := policySteps self s4
  if self.high_missing_threshold ≤ miss then strictSteps self s5
  else normalSteps self s5

/-- Schema failure of `_ensure_required_cols` (`ValueError`). -/
inductive CleanErr
  | schema
  deriving DecidableEq

/-- `MissingData.clean` packaged with the caller's frame as it stands after
the call (the schema check raises before anything touches the data). -/
def MissingData.cleanFull (self : MissingData) (t : Table) :
    Except CleanErr Table × Table :=
  if reqCleanMissing t then (Except.error CleanErr.schema, t)
  else
    let s := self.cleanSt t
    (Except.ok s.cur, s.caller)

/-- `MissingData.clean`: the returned frame (or the schema error). -/
def MissingData.clean (self : MissingData) (t : Table) : Except CleanErr Table :=
  (self.cleanFull t).1

/-- Machine-float value as the feature engine can observe it: the IEEE
special values plus exact rationals.  The two irrational-valued carriers are
`sqr a b` denoting `a * sqrt b` (rolling standard deviations, correlations)
and `lg q` denoting `ln q` (log returns); in the embedded feature set these
are final column values and never re-enter arithmetic, so the arithmetic
operations map them to `nan` in their (unreachable) operand positions. -/
inductive F
  | nan
  | inf
  | neginf
  | num (q : Q)
  | sqr (a b : Q)
  | lg (q : Q)
  deriving DecidableEq

/-- IEEE addition on the observable values. -/
def F.add : F → F → F
  | F.num a, F.num b => F.num (a + b)
  | F.inf, F.num _ => F.inf
  | F.num _, F.inf => F.inf
  | F.inf, F.inf => F.inf
  | F.neginf, F.num _ => F.neginf
  | F.num _, F.neginf => F.neginf
  | F.neginf, F.neginf => F.neginf
  | _, _ => F.nan

/-- IEEE negation. -/
def F.neg : F → F
  | F.num a => F.num (-a)
  | F.inf => F.neginf
  | F.neginf => F.inf
  | _ => F.nan

/-- IEEE subtraction. -/
def F.sub (x y : F) : F := F.add x (F.neg y)

/-- IEEE multiplication (`0 * inf = nan`). -/
def F.mul : F → F → F
  | F.num a, F.num b => F.num (a * b)
  | F.num a, F.inf => if a = 0 then F.nan else if a > 0 then F.inf else F.neginf
  | F.inf, F.num a => if a = 0 then F.nan else if a > 0 then F.inf else F.neginf
  | F.num a, F.neginf => if a = 0 then F.nan else if a > 0 then F.neginf else F.inf
  | F.neginf, F.num a => if a = 0 then F.nan else if a > 0 then F.neginf else F.inf
  | F.inf, F.inf => F.inf
  | F.neginf, F.neginf => F.inf
  | F.inf, F.neginf => F.neginf
  | F.neginf, F.inf => F.neginf
  | _, _ => F.nan

/-- IEEE division: a zero denominator under a nonzero numerator gives a
signed infinity (numpy semantics, what pandas element division does);
`0 / 0` gives `nan`. -/
def F.div : F → F → F
  | F.num a, F.num b =>
    if b = 0 then (if a = 0 then F.nan else if a > 0 then F.inf else F.neginf)
    else F.num (a / b)
  | F.num _, F.inf => F.num 0
  | F.num _, F.neginf => F.num 0
  | F.inf, F.num b => if b < 0 then F.neginf else F.inf
  | F.neginf, F.num b => if b < 0 then F.inf else F.neginf
  | _, _ => F.nan

/-- Strict `>` as the float comparison: any comparison involving `nan` (or an
irrational carrier, unreachable) is false. -/
def F.gtB : F → F → Bool
  | F.num a, F.num b => decide (b < a)
  | F.inf, F.num _ => true
  | F.inf, F.neginf => true
  | F.num _, F.neginf => true
  | _, _ => false

/-- `np.maximum`: propagates `nan`. -/
def F.maxF : F → F → F
  | F.num a, F.num b => F.num (max a b)
  | F.nan, _ => F.nan
  | _, F.nan => F.nan
  | F.inf, _ => F.inf
  | _, F.inf => F.inf
  | F.neginf, v => v
  | v, F.neginf => v
  | _, _ => F.nan

/-- Minimum with `nan` propagation (the rolling-min aggregate under full
`min_periods` never sees a window with a null without returning null). -/
def F.minF : F → F → F
  | F.num a, F.num b => F.num (min a b)
  | F.nan, _ => F.nan
  | _, F.nan => F.nan
  | F.neginf, _ => F.neginf
  | _, F.neginf => F.neginf
  | F.inf, v => v
  | v, F.inf => v
  | _, _ => F.nan

/-- IEEE absolute value. -/
def F.absF : F → F
  | F.num a => F.num (Q.absQ a)
  | F.inf => F.inf
  | F.neginf => F.inf
  | _ => F.nan

/-- `np.log` on the observable values. -/
def F.logF : F → F
  | F.inf => F.inf
  | F.num q => if q < 0 then F.nan else if q = 0 then F.neginf
      else if q = 1 then F.num 0 else F.lg q
  | _ => F.nan

/-- Series element access; out-of-range reads as `nan` (pandas alignment). -/
def fget (xs : List F) (i : ℕ) : F :=
  (xs.get? i).getD F.nan

/-- Elementwise binary operation over two aligned series. -/
def map2F (f : F → F → F) (xs ys : List F) : List F :=
  (List.range (max xs.length ys.length)).map (fun i => f (fget xs i) (fget ys i))

/-- Elementwise unary operation. -/
def mapF (f : F → F) (xs : List F) : List F :=
  xs.map f

/-- `Series.shift(n)`: the first `n` positions become null. -/
def shiftF (n : ℕ) (xs : List F) : List F :=
  (List.range xs.length).map (fun i => if i < n then F.nan else fget xs (i - n))

/-- `Series.replace(0, np.nan)`: the null-safety guard the source puts on
denominators. -/
def replace0 (xs : List F) : List F :=
  xs.map (fun x => if x == F.num 0 then F.nan else x)

/-- `Series.pct_change(n)`: `x_i / x_(i-n) - 1`, null on the first `n`
positions.  Modelled with `fill_method=None` (the modern pandas default;
the legacy `pad` default would forward-fill nulls before dividing). -/
def pctChange (n : ℕ) (xs : List F) : List F :=
  (List.range xs.length).map (fun i =>
    if i < n then F.nan
    else F.sub (F.div (fget xs i) (fget xs (i - n))) (F.num 1))

/-- The trailing window of width `w` ending at position `i` (meaningful when
`w ≤ i + 1`). -/
def windowAt (xs : List F) (w : ℕ) (i : ℕ) : List F :=
  (List.range w).map (fun j => fget xs (i + 1 - w + j))

/-- `Series.rolling(w).mean()` with the default `min_periods = w`: null until
a full window exists; a null inside the window propagates through the sum. -/
def rollingMean (w : ℕ) (xs : List F) : List F :=
  (List.range xs.length).map (fun i =>
    if i + 1 < w || w = 0 then F.nan
    else F.div ((windowAt xs w i).foldl F.add (F.num 0)) (F.num (Q.ofNat w)))

/-- `Series.rolling(w).min()` with the default `min_periods = w`. -/
def rollingMin (w : ℕ) (xs : List F) : List F :=
  (List.range xs.length).map (fun i =>
    if i + 1 < w || w = 0 then F.nan
    else (windowAt xs w i).foldl F.minF F.inf)

/-- All window entries as rationals, or `none` when any entry is a special
value (the rolling second-moment aggregates return null there). -/
def allNums : List F → Option (List Q)
  | [] => some []
  | F.num q :: rest => (allNums rest).map (fun l => q :: l)
  | _ => Option.none

/-- Sample variance of a full window (`ddof = 1`), the core of
`Series.rolling(w).std()`; null for `w = 1` (division by zero count). -/
def rollingVarQ (w : ℕ) (xs : List F) (i : ℕ) : F :=
  if i + 1 < w || w = 0 then F.nan
  else
    match allNums (windowAt xs w i) with
    | some qs =>
      if w = 1 then F.nan
      else
        let m := qsum qs / Q.ofNat w
        F.num (qsum (qs.map (fun q => (q - m) * (q - m))) / (Q.ofNat w - 1))
    | Option.none => F.nan

/-- `std * sqrt c` given the variance: `sqrt (c * v)`, kept exact in the
`F.sqr` carrier. -/
def sqrtScaleF (c : Q) : F → F
  | F.num v => if c * v = 0 then F.num 0 else F.sqr 1 (c * v)
  | F.inf => F.inf
  | _ => F.nan

/-- `Series.rolling(w).std() * sqrt c` as a series. -/
def rollingStdScaled (c : Q) (w : ℕ) (xs : List F) : List F :=
  (List.range xs.length).map (fun i => sqrtScaleF c (rollingVarQ w xs i))

/-- `a.rolling(w).corr(b)` with full `min_periods`: null until a full window
of non-null pairs exists or when either side has zero variance; the value
`cov / sqrt (va * vb)` is kept exact in the `F.sqr` carrier. -/
def rollingCorr (w : ℕ) (xs ys : List F) : List F :=
  (List.range xs.length).map (fun i =>
    if i + 1 < w || w = 0 then F.nan
    else
      match allNums (windowAt xs w i), allNums (windowAt ys w i) with
      | some as_, some bs =>
        let ma := qsum as_ / Q.ofNat w
        let mb := qsum bs / Q.ofNat w
        let cov := qsum (List.zipWith (fun a b => (a - ma) * (b - mb)) as_ bs)
        let va := qsum (as_.map (fun a => (a - ma) * (a - ma)))
        let vb := qsum (bs.map (fun b => (b - mb) * (b - mb)))
        if va = 0 || vb = 0 then F.nan
        else if cov = 0 then F.num 0
        else if cov > 0 then F.sqr 1 (cov * cov / (va * vb))
        else F.sqr (-1) (cov * cov / (va * vb))
      | _, _ => F.nan)

/-- Worker for `Series.ewm(span, adjust=False).mean()` (`ignore_na = False`):
carries the running average and the decayed weight of the old average; a
null input emits the running average unchanged; a value before the first
observation emits null.  Only rational and null inputs occur in the embedded
uses (close prices after `to_numeric`). -/
def ewmGo (al : Q) : Option Q → Q → List F → List F
  | _, _, [] => []
  | Option.none, _, F.num q :: rest => F.num q :: ewmGo al (some q) 1 rest
  | Option.none, ow, _ :: rest => F.nan :: ewmGo al Option.none ow rest
  | some a, ow, F.num q :: rest =>
    let ow2 := ow * (1 - al)
    let a2 := (ow2 * a + al * q) / (ow2 + al)
    F.num a2 :: ewmGo al (some a2) 1 rest
  | some a, ow, _ :: rest => F.num a :: ewmGo al (some a) (ow * (1 - al)) rest

/-- `Series.ewm(span=w, adjust=False).mean()` with `alpha = 2 / (w + 1)`:
note this produces a value from the very first observation (no warm-up). -/
def ewmMean (w : ℕ) (xs : List F) : List F :=
  ewmGo (2 / (Q.ofNat w + 1)) Option.none 1 xs

/-- `Series.cummax()` (`skipna = True`): null positions emit null, the
running maximum of the observed values carries on. -/
def cummaxGo : Option Q → List F → List F
  | _, [] => []
  | m, F.num q :: rest =>
    let m2 := match m with
      | some mv => max mv q
      | Option.none => q
    F.num m2 :: cummaxGo (some m2) rest
  | m, _ :: rest => F.nan :: cummaxGo m rest

/-- `Series.cummax()` from the start of the series. -/
def cummaxF (xs : List F) : List F :=
  cummaxGo Option.none xs

/-- `TransformConfig` of `transformation/transformers/base.py` (column-name
mapping, with its defaults). -/
structure TransformConfig where
  symbol_col : String := "ticker"
  date_col : String := "date"
  open_col : String := "open"
  high_col : String := "high"
  low_col : String := "low"
  close_col : String := "close"
  volume_col : String := "volume"
  deriving DecidableEq

/-- `DailyOhlcvParams` with its defaults.  The `rsi`, `bb` and `atr` period
lists parameterize indicator columns delegated to the external `ta` library,
which the spec abstracts behind an indicator interface; those columns are
outside this embedding. -/
structure DailyOhlcvParams where
  ma_windows : List ℕ := [10, 20, 50, 100, 200]
  rsi_periods : List ℕ := [14, 21, 28]
  roc_periods : List ℕ := [10, 20, 63]
  adx_periods : List ℕ := [14, 20]
  volatility_windows : List ℕ := [20, 30, 60, 126]
  bb_periods : List ℕ := [20, 30]
  atr_periods : List ℕ := [14, 21]
  volume_ma_windows : List ℕ := [20, 50, 100]
  ma_pairs : List (ℕ × ℕ) := [(20, 50), (50, 200)]
  drawdown_windows : List ℕ := [63, 126, 252]
  trend_persistence_windows : List ℕ := [63, 126, 252]
  corr_windows : List ℕ := [63, 126]
  excess_return_windows : List ℕ := [63, 126]
  deriving DecidableEq

/-- A benchmark series: `(date, close)` pairs with unique dates. -/
abbrev Benchmark := List (Int × Q)

/-- `as_benchmark_series`: the benchmark sorted by date. -/
def as_benchmark_series (b : Benchmark) : Benchmark :=
  insSort (fun x y => decide (x.1 ≤ y.1)) b

/-- `bench_close.reindex(dates)` for one date: date lookup, null when the
date is unmatched. -/
def benchLookup (b : Benchmark) (d : Int) : F :=
  match b.find? (fun p => p.1 == d) with
  | some p => F.num p.2
  | Option.none => F.nan

/-- `bench_close.pct_change(1)` over the benchmark's own sorted series,
kept with its dates for the later alignment. -/
def benchRet1d (b : Benchmark) : List (Int × F) :=
  (List.range b.length).map (fun j =>
    match b.get? j with
    | some p =>
      (p.1,
        if j = 0 then F.nan
        else
          match b.get? (j - 1) with
          | some q => F.sub (F.div (F.num p.2) (F.num q.2)) (F.num 1)
          | Option.none => F.nan)
    | Option.none => (0, F.nan))

/-- `bench_ret_1d.reindex(dates)` for one date. -/
def benchRetLookup (l : List (Int × F)) (d : Int) : F :=
  match l.find? (fun p => p.1 == d) with
  | some p => p.2
  | Option.none => F.nan

/-- Line 238: `close.rolling(window).mean()`. -/
def smaF (w : ℕ) (close : List F) : List F :=
  rollingMean w close

/-- Line 239: `close.ewm(span=window, adjust=False).mean()`. -/
def emaF (w : ℕ) (close : List F) : List F :=
  ewmMean w close

/-- Lines 244-245: `(close - ma) / ma.replace(0, nan)`, the relative
distance of close to a moving average. -/
def priceVsMa (close ma : List F) : List F :=
  map2F F.div (map2F F.sub close ma) (replace0 ma)

/-- Line 233: `(high - low) / close.replace(0, nan)`. -/
def highLowRange (high low close : List F) : List F :=
  map2F F.div (map2F F.sub high low) (replace0 close)

/-- Line 234: `(close - open_) / open_.replace(0, nan)`. -/
def closeOpenChange (close open_ : List F) : List F :=
  map2F F.div (map2F F.sub close open_) (replace0 open_)

/-- Lines 256-258: `(close - close.shift(p)) / close.shift(p) * 100`.
Note: this denominator has no `replace(0, nan)` guard. -/
def rocF (p : ℕ) (close : List F) : List F :=
  let sh := shiftF p close
  mapF (fun x => F.mul x (F.num 100)) (map2F F.div (map2F F.sub close sh) sh)

/-- `calculate_adx`, lines 41-63: true range and directional movement
smoothed by plain rolling means over the period. -/
def calculate_adx (high low close : List F) (period : ℕ) : List F :=
  let pc := shiftF 1 close
  let tr := map2F F.maxF (map2F F.sub high low)
    (map2F F.maxF (mapF F.absF (map2F F.sub high pc)) (mapF F.absF (map2F F.sub low pc)))
  let atr := rollingMean period tr
  let up := map2F F.sub high (shiftF 1 high)
  let dn := map2F F.sub (shiftF 1 low) low
  let plus_dm := map2F (fun u d =>
    if F.gtB u d && F.gtB u (F.num 0) then u else F.num 0) up dn
  let minus_dm := map2F (fun u d =>
    if F.gtB d u && F.gtB d (F.num 0) then d else F.num 0) up dn
  let plus_di := map2F F.div (mapF (F.mul (F.num 100)) (rollingMean period plus_dm)) atr
  let minus_di := map2F F.div (mapF (F.mul (F.num 100)) (rollingMean period minus_dm)) atr
  let dx := map2F F.div
    (mapF (F.mul (F.num 100)) (mapF F.absF (map2F F.sub plus_di minus_di)))
    (map2F F.add plus_di minus_di)
  rollingMean period dx

/-- Lines 273-275: `(short_sma > long_sma).astype(int)` (a null comparison is
false, hence `0`, never null). -/
def smaAbove (smaS smaL : List F) : List F :=
  map2F (fun s l => if F.gtB s l then F.num 1 else F.num 0) smaS smaL

/-- Lines 276-278: `(short_sma - long_sma) / long_sma.replace(0, nan)`. -/
def smaPairDiff (smaS smaL : List F) : List F :=
  map2F F.div (map2F F.sub smaS smaL) (replace0 smaL)

/-- Lines 281-284: `returns_1d.rolling(w).std() * sqrt 252`. -/
def volatilityF (w : ℕ) (returns_1d : List F) : List F :=
  rollingStdScaled 252 w returns_1d

/-- Lines 312-314: volume rolling mean and `volume / vma.replace(0, nan)`. -/
def volumeRatio (w : ℕ) (volume : List F) : List F :=
  map2F F.div volume (replace0 (rollingMean w volume))

/-- `compute_drawdown`, lines 65-68: `(close - peak) / peak.replace(0, nan)`
with `peak = close.cummax()`. -/
def compute_drawdown (close : List F) : List F :=
  let peak := cummaxF close
  map2F F.div (map2F F.sub close peak) (replace0 peak)

/-- Line 330: `drawdown.rolling(w).min()`. -/
def maxDrawdownF (w : ℕ) (close : List F) : List F :=
  rollingMin w (compute_drawdown close)

/-- Lines 334-336: `(close > close.rolling(w).mean()).rolling(w).mean()`
(the boolean comparison is never null, so only the outer window warms up). -/
def trendPersistenceF (w : ℕ) (close : List F) : List F :=
  rollingMean w (map2F (fun c s => if F.gtB c s then F.num 1 else F.num 0)
    close (rollingMean w close))

/-- Lines 347-349: `close.pct_change(w) - benchmark_close.pct_change(w)`
over the aligned benchmark closes. -/
def excessReturnF (w : ℕ) (close bclose : List F) : List F :=
  map2F F.sub (pctChange w close) (pctChange w bclose)

/-- Lines 351-355: rolling correlation of the 1-day returns with the aligned
benchmark 1-day returns. -/
def corrToBenchmarkF (w : ℕ) (returns_1d brets : List F) : List F :=
  rollingCorr w returns_1d brets

/-- String key of a row in a named column (used with the configured symbol
column). -/
def keyStrAt (t : Table) (n : String) (r : List Cell) : String :=
  match t.cellOf r n with
  | some (CellVal.str s) => s
  | _ => ""

/-- Date key of a row in a named column. -/
def keyDateAt (t : Table) (n : String) (r : List Cell) : Int :=
  match t.cellOf r n with
  | some (CellVal.date d) => d
  | _ => 0

/-- Lexicographic `(symbol, date)` comparison of
`sort_values([symbol_col, date_col])` in `transform`. -/
def rowLeAt (t : Table) (sn dn : String) (r1 r2 : List Cell) : Bool :=
  strLt (keyStrAt t sn r1) (keyStrAt t sn r2) ||
    (keyStrAt t sn r1 == keyStrAt t sn r2 && keyDateAt t dn r1 ≤ keyDateAt t dn r2)

/-- Line 203: `df.sort_values([symbol_col, date_col]).reset_index(drop=True)`
(stable sort; `(symbol, date)` keys are unique by precondition). -/
def sortByKeyAt (cfg : TransformConfig) (t : Table) : Table :=
  { t with rows := insSort (rowLeAt t cfg.symbol_col cfg.date_col) t.rows }

/-- `pd.to_numeric(cell, errors="coerce")` feeding `.astype(float)`:
rationals pass through, anything else (including null) reads as `nan`. -/
def numCellF : Cell → F
  | some (CellVal.num q) => F.num q
  | _ => F.nan

/-- A named column of a group of rows as a float series. -/
def colSeries (t : Table) (rows : List (List Cell)) (n : String) : List F :=
  match t.colIdx n with
  | some i => rows.map (fun r => numCellF (cellAt r i))
  | Option.none => rows.map (fun _ => F.nan)

/-- Dates of a group of rows (validated to be actual dates beforehand). -/
def dateSeries (t : Table) (rows : List (List Cell)) (n : String) : List Int :=
  rows.map (keyDateAt t n)

/-- The feature columns computed for one symbol's rows, in the source's
column order.  Columns delegated to the external `ta` library (`rsi_*`,
`stoch_*`, `macd*`, `bb_*`, `atr_*`, `obv*`, `cmf_*`) are outside the
embedding; everything computed directly with pandas in `transform` is here. -/
def symbolFeatures (cfg : TransformConfig) (ps : DailyOhlcvParams)
    (bench : Option Benchmark) (t : Table) (rows : List (List Cell)) :
    List (String × List F) :=
  let close := colSeries t rows cfg.close_col
  let high := colSeries t rows cfg.high_col
  let low := colSeries t rows cfg.low_col
  let open_ := colSeries t rows cfg.open_col
  let volume := colSeries t rows cfg.volume_col
  let returns_1d := pctChange 1 close
  [("returns_1d", returns_1d),
   ("returns_21d", pctChange 21 close),
   ("returns_63d", pctChange 63 close),
   ("log_returns_1d", mapF F.logF (map2F F.div close (shiftF 1 close))),
   ("high_low_range", highLowRange high low close),
   ("close_open_change", closeOpenChange close open_)] ++
  (ps.ma_windows.flatMap (fun w =>
    let sma := smaF w close
    let ema := emaF w close
    [(s!"sma_{w}", sma), (s!"ema_{w}", ema),
     (s!"price_vs_sma_{w}", priceVsMa close sma),
     (s!"price_vs_ema_{w}", priceVsMa close ema)])) ++
  (ps.roc_periods.map (fun p => (s!"roc_{p}", rocF p close))) ++
  (ps.adx_periods.map (fun p => (s!"adx_{p}", calculate_adx high low close p))) ++
  (ps.ma_pairs.flatMap (fun pr =>
    let s := pr.1
    let l := pr.2
    if ps.ma_windows.contains s && ps.ma_windows.contains l then
      let smaS := smaF s close
      let smaL := smaF l close
      [(s!"sma_{s}_above_{l}", smaAbove smaS smaL),
       (s!"sma_{s}_{l}_diff", smaPairDiff smaS smaL)]
    else [])) ++
  (ps.volatility_windows.map (fun w => (s!"volatility_{w}", volatilityF w returns_1d))) ++
  (ps.volume_ma_windows.flatMap (fun w =>
    [(s!"volume_sma_{w}", rollingMean w volume),
     (s!"volume_ratio_{w}", volumeRatio w volume)])) ++
  [("drawdown", compute_drawdown close)] ++
  (ps.drawdown_windows.map (fun w => (s!"max_drawdown_{w}", maxDrawdownF w close))) ++
  (ps.trend_persistence_windows.map (fun w =>
    (s!"trend_persistence_{w}", trendPersistenceF w close))) ++
  (match bench with
   | Option.none => []
   | some b =>
     let bs := as_benchmark_series b
     let rets := benchRet1d bs
     let dates := dateSeries t rows cfg.date_col
     let bclose := dates.map (benchLookup bs)
     let brets := dates.map (benchRetLookup rets)
     [("benchmark_close", bclose), ("benchmark_returns_1d", brets)] ++
     (ps.excess_return_windows.map (fun w =>
       (s!"excess_return_{w}", excessReturnF w close bclose))) ++
     (ps.corr_windows.map (fun w =>
       (s!"corr_to_benchmark_{w}", corrToBenchmarkF w returns_1d brets))))

/-- The feature table: the input columns and rows (sorted), plus the derived
feature columns, which in pandas are new float columns of the same frame and
are kept here in a parallel, row-aligned block. -/
structure FTable where
  cols : List Col
  rows : List (List Cell)
  featNames : List String
  feats : List (List F)
  deriving DecidableEq

/-- Row-major feature block of one group from its named feature columns. -/
def featRows (fc : List (String × List F)) (m : ℕ) : List (List F) :=
  (List.range m).map (fun i => fc.map (fun p => fget p.2 i))

/-- `transform` failures: the schema `ValueError` of `_validate_columns`,
or `pd.to_datetime` raising on an unparsable date cell. -/
inductive TErr
  | schema
  | badDate
  deriving DecidableEq

/-- `DailyOhlcvTransformer.required_columns`: the seven configured columns. -/
def requiredTransformCols (cfg : TransformConfig) : List String :=
  [cfg.symbol_col, cfg.date_col, cfg.open_col, cfg.high_col, cfg.low_col,
   cfg.close_col, cfg.volume_col]

/-- True when some required column of `transform` is absent. -/
def reqTransformMissing (cfg : TransformConfig) (t : Table) : Bool :=
  !((requiredTransformCols cfg).all t.hasCol)

/-- Whether every date cell is an actual date (`pd.to_datetime` without
`errors="coerce"` raises otherwise; null/`NaT` dates do not occur in cleaned
input and are outside the model). -/
def datesParse (cfg : TransformConfig) (t : Table) : Bool :=
  t.rows.all (fun r =>
    match t.cellOf r cfg.date_col with
    | some (CellVal.date _) => true
    | _ => false)

/-- Line 202: the date-column assignment after a successful parse: the cells
are already dates, so only the column dtype changes. -/
def coerceDateColT (cfg : TransformConfig) (t : Table) : Table :=
  match t.colIdx cfg.date_col with
  | some i => setColAt t i Dtype.datetime toDatetimeCell
  | Option.none => t

/-- Contiguous runs of rows with equal key (the `groupby` of line 212 on the
frame just sorted by `(symbol, date)`: groups are contiguous and appear in
ascending symbol order). -/
def runsBy (key : List Cell → String) : List (List Cell) → List (List (List Cell))
  | [] => []
  | r :: rs =>
    match runsBy key rs with
    | [] => [[r]]
    | g :: gs =>
      match g with
      | [] => [r] :: gs
      | r2 :: _ => if key r == key r2 then (r :: g) :: gs else [r] :: g :: gs

/-- `DailyOhlcvTransformer.transform`, lines 192-359, paired with the
caller's frame after the call: schema check, empty-input copy, date
coercion, `(symbol, date)` sort, per-symbol feature computation, and the
final concatenation in group order. -/
def transformFull (cfg : TransformConfig) (ps : DailyOhlcvParams)
    (bench : Option Benchmark) (t : Table) : Except TErr FTable × Table :=
  if reqTransformMissing cfg t then (Except.error TErr.schema, t)
  else if t.rows.isEmpty then (Except.ok ⟨t.cols, t.rows, [], []⟩, t)
  else if !(datesParse cfg t) then (Except.error TErr.badDate, t)
  else
    let s1 := rebind id { caller := t, cur := t, aliased := true }
    let s2 := inplace (coerceDateColT cfg) s1
    let s3 := rebind (sortByKeyAt cfg) s2
    let sorted := s3.cur
    let groups := runsBy (keyStrAt sorted cfg.symbol_col) sorted.rows
    let outPairs := groups.map (fun g => (g, symbolFeatures cfg ps bench sorted g))
    let names :=
      match outPairs.head? with
      | some p => p.2.map Prod.fst
      | Option.none => []
    let rows2 := (outPairs.map Prod.fst).flatten
    let feats := (outPairs.map (fun p => featRows p.2 p.1.length)).flatten
    (Except.ok ⟨sorted.cols, rows2, names, feats⟩, s3.caller)

/-- `DailyOhlcvTransformer.transform`: the returned feature frame. -/
def transformE (cfg : TransformConfig) (ps : DailyOhlcvParams)
    (bench : Option Benchmark) (t : Table) : Except TErr FTable :=
  (transformFull cfg ps bench t).1

/-- Feature cell of the result, by column name and row position. -/
def featOf (r : Except TErr FTable) (n : String) (i : ℕ) : Option F :=
  match r with
  | Except.ok ft =>
    match ft.featNames.findIdx? (fun m => m == n) with
    | some j => (ft.feats.get? i).map (fun fr => fget fr j)
    | Option.none => Option.none
  | _ => Option.none

/-- Symbol of the first output row. -/
def headSymOf (cfg : TransformConfig) (r : Except TErr FTable) : Option String :=
  match r with
  | Except.ok ft => ft.rows.head?.map (keyStrAt ⟨ft.cols, ft.rows⟩ cfg.symbol_col)
  | _ => Option.none

/-- Worker for first-occurrence deduplication: keeps elements not yet seen. -/
def dedupFirstGo (seen : List String) : List String → List String
  | [] => []
  | x :: xs =>
    if seen.contains x then dedupFirstGo seen xs
    else x :: dedupFirstGo (x :: seen) xs

/-- First-occurrence deduplication (the order in which symbols first appear). -/
def dedupFirst (l : List String) : List String :=
  dedupFirstGo [] l

/-- Symbols of a table in first-appearance order. -/
def firstAppearanceSyms (cfg : TransformConfig) (t : Table) : List String :=
  dedupFirst (t.rows.map (keyStrAt t cfg.symbol_col))

/-- Symbols of the output in first-appearance order. -/
def outSyms (cfg : TransformConfig) (r : Except TErr FTable) : Option (List String) :=
  match r with
  | Except.ok ft => some (firstAppearanceSyms cfg ⟨ft.cols, ft.rows⟩)
  | _ => Option.none

/-- Table has no null cell in any tracked column position. -/
def noNulls (t : Table) : Bool :=
  t.rows.all (fun r => (List.range t.cols.length).all (fun i => (cellAt r i).isSome))

/-- Result of `clean` has no nulls whenever it returns a table. -/
def resultNoNulls : Except CleanErr Table → Bool
  | Except.ok u => noNulls u
  | Except.error _ => true

/-- The strict branch as the spec words it: after the invalid-row drop, the
no-bar drop and the partial-price policy, drop every non-protected column
whose own missingness is at least the threshold, then drop every row still
containing any null, and return — no imputation. -/
def strictBranchSpec (self : MissingData) (t : Table) : Table :=
  dropnaAll (dropHighMissCols self
    (applyPolicy self (dropNoBar (dropKeyNa (coerceDates t)))))

/-- Default transformer configuration. -/
def cfg0 : TransformConfig := {}

/-- Engine with partial-price policy `none` and the other defaults. -/
def mdNone : MissingData := { price_policy := PricePolicy.none }

/-- Default engine. -/
def mdDefault : MissingData := {}

/-- String cell. -/
def cS (s : String) : Cell := some (CellVal.str s)

/-- Numeric cell. -/
def cN (q : Q) : Cell := some (CellVal.num q)

/-- Date cell. -/
def cD (d : Int) : Cell := some (CellVal.date d)

/-- The seven standard columns with their standard dtypes. -/
def exCols : List Col :=
  [⟨"ticker", Dtype.text⟩, ⟨"date", Dtype.datetime⟩, ⟨"open", Dtype.numeric⟩,
   ⟨"high", Dtype.numeric⟩, ⟨"low", Dtype.numeric⟩, ⟨"close", Dtype.numeric⟩,
   ⟨"volume", Dtype.numeric⟩]

/-- One symbol-`A` bar row. -/
def exRowA (d : Int) (c : Q) (v : Q) : List Cell :=
  [cS "A", cD d, cN c, cN c, cN c, cN c, cN v]

/-- A fully populated table whose two rows are out of date order. -/
def exUnsorted : Table := ⟨exCols, [exRowA 2 10 5, exRowA 1 11 6]⟩

/-- The same rows in ascending date order. -/
def exSorted : Table := ⟨exCols, [exRowA 1 11 6, exRowA 2 10 5]⟩

/-- Two bars with a zero close on the first one. -/
def exZeroClose : Table := ⟨exCols, [exRowA 1 0 5, exRowA 2 1 5]⟩

/-- Parameter set with every feature-family list empty. -/
def psEmpty : DailyOhlcvParams :=
  { ma_windows := [], rsi_periods := [], roc_periods := [], adx_periods := [],
    volatility_windows := [], bb_periods := [], atr_periods := [],
    volume_ma_windows := [], ma_pairs := [], drawdown_windows := [],
    trend_persistence_windows := [], corr_windows := [],
    excess_return_windows := [] }

/-- Parameter set computing only `roc_1`. -/
def psRoc1 : DailyOhlcvParams := { psEmpty with roc_periods := [1] }

/-- Parameter set computing only the 10-window moving averages. -/
def psMa10 : DailyOhlcvParams := { psEmpty with ma_windows := [10] }

/-- A single-bar table with close `5`. -/
def exOneBar : Table := ⟨exCols, [exRowA 1 5 7]⟩

/-- One bar for a named symbol. -/
def exRowSym (s : String) (d : Int) : List Cell :=
  [cS s, cD d, cN 1, cN 1, cN 1, cN 1, cN 1]

/-- Symbol `B` appears first, symbol `A` second. -/
def exBA : Table := ⟨exCols, [exRowSym "B" 1, exRowSym "A" 1]⟩

/-- Parameter set computing only the 2-window benchmark-relative features. -/
def psBench2 : DailyOhlcvParams :=
  { psEmpty with excess_return_windows := [2], corr_windows := [2] }

/-- Five bars of one symbol on dates `0..4` with closes `1..5`. -/
def exFive : Table :=
  ⟨exCols, (List.range 5).map (fun i => exRowA (Int.ofNat i) (Q.ofNat i + 1) 1)⟩

/-- Benchmark carrying all five dates. -/
def exBenchFull : Benchmark := [(0, 1), (1, 2), (2, 3), (3, 4), (4, 5)]

/-- The same benchmark with date `2` missing. -/
def exBenchMiss : Benchmark := [(0, 1), (1, 2), (3, 4), (4, 5)]

/-- Columns with an extra imputable numeric column `x`. -/
def exColsX : List Col := exCols ++ [⟨"x", Dtype.numeric⟩]

/-- A table whose global missingness (4 of 16 cells, 25%) reaches the
default threshold: column `x` is entirely null, and the first row also has a
null low and a null volume. -/
def exHighMiss : Table :=
  ⟨exColsX,
    [[cS "A", cD 1, cN 1, cN 1, Option.none, cN 1, Option.none, Option.none],
     [cS "A", cD 2, cN 1, cN 1, cN 1, cN 1, cN 6, Option.none]]⟩

deriving instance DecidableEq for Except

/-- Zero is below a rational exactly when its numerator is positive. -/
theorem Q.zero_lt_iff {a : Q} : ((0 : Q) < a) ↔ 0 < a.n := by
  show (0 * (a.d : Int) < a.n * 1) ↔ 0 < a.n
  simp

/-- A rational is below zero exactly when its numerator is nonpositive. -/
theorem Q.le_zero_iff {a : Q} : (a ≤ (0 : Q)) ↔ a.n ≤ 0 := by
  show (a.n * 1 ≤ 0 * (a.d : Int)) ↔ a.n ≤ 0
  simp

/-- A positive threshold is not at or below zero. -/
theorem Q.not_le_zero_of_pos {a : Q} (h : (0 : Q) < a) : ¬ a ≤ (0 : Q) := by
  rw [Q.le_zero_iff]
  rw [Q.zero_lt_iff] at h
  omega

/-- The policy step leaves the caller's frame alone once unaliased. -/
theorem policySteps_caller (self : MissingData) (s : PSt) (h : s.aliased = false) :
    (policySteps self s).caller = s.caller := by
  cases hp : self.price_policy <;> simp [policySteps, hp, rebind, inplace, h]

/-- The policy step never re-aliases the frames. -/
theorem policySteps_aliased (self : MissingData) (s : PSt) (h : s.aliased = false) :
    (policySteps self s).aliased = false := by
  cases hp : self.price_policy <;> simp [policySteps, hp, rebind, inplace, h]

/-- The normal branch leaves the caller's frame alone once unaliased. -/
theorem normalSteps_caller (self : MissingData) (s : PSt) (h : s.aliased = false) :
    (normalSteps self s).caller = s.caller := by
  simp only [normalSteps]
  split <;> simp [rebind, inplace, h]

/-- Either final branch of `cleanSt` leaves the caller's frame alone. -/
theorem branch_caller (self : MissingData) (s : PSt) (h : s.aliased = false) (m : Q) :
    (if self.high_missing_threshold ≤ m then strictSteps self (policySteps self s)
      else normalSteps self (policySteps self s)).caller = s.caller := by
  split
  · show (policySteps self s).caller = s.caller
    exact policySteps_caller self s h
  · rw [normalSteps_caller self _ (policySteps_aliased self s h)]
    exact policySteps_caller self s h

/-- The whole `clean` state machine leaves the caller's frame alone: the
copy on line 51 precedes the first in-place column assignment. -/
theorem cleanSt_caller (self : MissingData) (t : Table) :
    (self.cleanSt t).caller = t :=
  branch_caller self
    (rebind dropNoBar (rebind dropKeyNa (inplace coerceDates
      (rebind id { caller := t, cur := t, aliased := true })))) rfl _

/-- C9.  Neither `clean` nor `transform` mutates its input frame: after
either call the caller's table is exactly what it was before (the source
copies the frame before its first in-place column assignment; the schema
error paths touch nothing). -/
theorem C9_input_never_mutated :
    (∀ (self : MissingData) (t : Table), (self.cleanFull t).2 = t) ∧
    (∀ (cfg : TransformConfig) (ps : DailyOhlcvParams) (bench : Option Benchmark)
      (t : Table), (transformFull cfg ps bench t).2 = t) := by
  constructor
  · intro self t
    unfold MissingData.cleanFull
    split
    · rfl
    · exact cleanSt_caller self t
  · intro cfg ps bench t
    unfold transformFull
    split
    · rfl
    · split
      · rfl
      · split
        · rfl
        · rfl

/-- C7.  `clean` raises its schema `ValueError` exactly when one of its six
required columns (ticker, date, open, high, low, close) is absent, and
`transform` raises its schema `ValueError` exactly when one of its seven
configured required columns is absent; both checks run on the column list
alone, before any computation touches the rows. -/
theorem C7_schema_error_iff_missing_column :
    (∀ (self : MissingData) (t : Table),
      self.clean t = Except.error CleanErr.schema ↔ reqCleanMissing t = true) ∧
    (∀ (cfg : TransformConfig) (ps : DailyOhlcvParams) (bench : Option Benchmark)
      (t : Table),
      transformE cfg ps bench t = Except.error TErr.schema ↔
        reqTransformMissing cfg t = true) := by
  constructor
  · intro self t
    unfold MissingData.clean MissingData.cleanFull
    split
    · next h => simp [h]
    · next h => simp [h]
  · intro cfg ps bench t
    unfold transformE transformFull
    split
    · next h => simp [h]
    · next h =>
      simp only [Bool.not_eq_true] at h
      split
      · simp [h]
      · split
        · simp [h]
        · simp [h]

/-- A table that just dropped every row containing a null has no nulls. -/
theorem noNulls_dropnaAll (t : Table) : noNulls (dropnaAll t) = true := by
  simp only [noNulls, dropnaAll, List.all_eq_true]
  intro r hr
  have h2 := (List.mem_filter.mp hr).2
  rw [List.all_eq_true] at h2
  exact h2

/-- C10.  Whatever the input and configuration — including partial-price
policy `none` — every table `clean` returns has no null cell at all: both
the strict branch and the normal branch end with `df.dropna()`. -/
theorem C10_clean_output_has_no_nulls :
    ∀ (self : MissingData) (t : Table), resultNoNulls (self.clean t) = true := by
  intro self t
  unfold MissingData.clean MissingData.cleanFull
  split
  · rfl
  · show resultNoNulls (Except.ok (self.cleanSt t).cur) = true
    simp only [MissingData.cleanSt]
    split
    · exact noNulls_dropnaAll _
    · exact noNulls_dropnaAll _

/-- The working frame after the policy step is the pure policy function. -/
theorem policySteps_cur (self : MissingData) (s : PSt) :
    (policySteps self s).cur = applyPolicy self s.cur := by
  cases hp : self.price_policy <;> simp [policySteps, hp, applyPolicy, rebind, inplace]

/-- C6.  Whenever the global missingness ratio — taken after the
unparsable-date/missing-ticker row drop and before the no-bar and
partial-price drops — reaches the configured threshold, `clean` runs the
strict branch: it drops every non-protected column whose own missingness is
at least the threshold, then drops every row still containing any null, and
returns that immediately, with no imputation. -/
theorem C6_high_missingness_strict_branch (self : MissingData) (t : Table)
    (h1 : reqCleanMissing t = false)
    (h2 : self.high_missing_threshold ≤ missingness_ratio (dropKeyNa (coerceDates t))) :
    self.clean t = Except.ok (strictBranchSpec self t) := by
  unfold MissingData.clean MissingData.cleanFull
  simp only [h1, Bool.false_eq_true, if_false]
  show Except.ok (self.cleanSt t).cur = _
  simp only [MissingData.cleanSt, rebind, inplace, id_eq]
  rw [if_pos h2]
  simp only [strictSteps, rebind]
  rw [policySteps_cur]
  rfl

/-- Witness for C6: a 2-row table with 25% null cells under the default
20% threshold takes the strict branch, drops the all-null column `x` and
the row with a partially null bar, and keeps the intact row. -/
theorem C6_high_missingness_strict_branch_witness :
    reqCleanMissing exHighMiss = false ∧
    mdDefault.high_missing_threshold ≤ missingness_ratio (dropKeyNa (coerceDates exHighMiss)) ∧
    mdDefault.clean exHighMiss = Except.ok (strictBranchSpec mdDefault exHighMiss) ∧
    strictBranchSpec mdDefault exHighMiss =
      ⟨exCols, [[cS "A", cD 2, cN 1, cN 1, cN 1, cN 1, cN 6]]⟩ :=
  ⟨by decide, by decide,
    C6_high_missingness_strict_branch mdDefault exHighMiss (by decide) (by decide),
    by decide⟩

/-- C8.  An empty table carrying the required columns is a defined identity
no-op for both stages: `clean` walks its normal pipeline over zero rows and
returns the empty table unchanged (stated for a date column that is already
date-typed and a positive threshold, as in every real configuration), and
`transform` returns an unchanged copy of its empty input before any
computation. -/
theorem C8_empty_input_identity :
    (∀ (self : MissingData) (cols : List Col),
      reqCleanMissing ⟨cols, []⟩ = false →
      coerceDates ⟨cols, []⟩ = ⟨cols, []⟩ →
      (0 : Q) < self.high_missing_threshold →
      self.clean ⟨cols, []⟩ = Except.ok ⟨cols, []⟩) ∧
    (∀ (cfg : TransformConfig) (ps : DailyOhlcvParams) (bench : Option Benchmark)
      (cols : List Col),
      reqTransformMissing cfg ⟨cols, []⟩ = false →
      transformE cfg ps bench ⟨cols, []⟩ = Except.ok ⟨cols, [], [], []⟩) := by
  constructor
  · intro self cols h1 h2 h3
    unfold MissingData.clean MissingData.cleanFull
    simp only [h1, Bool.false_eq_true, if_false]
    show Except.ok (self.cleanSt ⟨cols, []⟩).cur = _
    simp only [MissingData.cleanSt, rebind, inplace, id_eq]
    rw [h2]
    have e1 : dropKeyNa (⟨cols, []⟩ : Table) = ⟨cols, []⟩ := rfl
    have e2 : dropNoBar (⟨cols, []⟩ : Table) = ⟨cols, []⟩ := rfl
    have hm : missingness_ratio (dropKeyNa (⟨cols, []⟩ : Table)) = 0 := by
      rw [e1]
      simp [missingness_ratio]
    rw [hm, if_neg (Q.not_le_zero_of_pos h3), e1, e2]
    have e3 : applyPolicy self (⟨cols, []⟩ : Table) = ⟨cols, []⟩ := by
      cases hp : self.price_policy <;>
        simp [applyPolicy, hp, dropPartialRows, ffillPrices, ffillGo, sortByKey, insSort]
    have hv : fillVolume0 (⟨cols, []⟩ : Table) = ⟨cols, []⟩ := by
      unfold fillVolume0
      split <;> rfl
    have e5 : ∀ s : PSt, s.cur = ⟨cols, []⟩ → (normalSteps self s).cur = ⟨cols, []⟩ := by
      intro s hs
      simp only [normalSteps, rebind, inplace, hs]
      split <;> simp [hv, fillNumCols, sortByKey, insSort, fillCatCols, dropnaAll]
    exact congrArg Except.ok (e5 (policySteps self _) (by rw [policySteps_cur]; exact e3))
  · intro cfg ps bench cols h1
    unfold transformE transformFull
    simp only [h1, Bool.false_eq_true, if_false, List.isEmpty_nil, if_true]

/-- Witness for C8: the standard seven columns with zero rows pass through
both stages untouched. -/
theorem C8_empty_input_identity_witness :
    reqCleanMissing ⟨exCols, []⟩ = false ∧
    mdDefault.clean ⟨exCols, []⟩ = Except.ok ⟨exCols, []⟩ ∧
    reqTransformMissing cfg0 ⟨exCols, []⟩ = false ∧
    transformE cfg0 psEmpty Option.none ⟨exCols, []⟩ = Except.ok ⟨exCols, [], [], []⟩ :=
  ⟨by decide,
    C8_empty_input_identity.1 mdDefault exCols (by decide) (by decide) (by decide),
    by decide,
    C8_empty_input_identity.2 cfg0 psEmpty Option.none exCols (by decide)⟩

/-- Counterexample to C5 as stated: a fully populated two-row table under
partial-price policy `none` comes back with its rows re-sorted by
`(ticker, date)`, not unchanged — the normal branch sorts whenever any
imputable numeric column (here: volume) is present (preprocessing line
116). -/
theorem C5_counterexample :
    mdNone.price_policy = PricePolicy.none ∧
    noNulls exUnsorted = true ∧
    mdNone.clean exUnsorted = Except.ok exSorted ∧
    exSorted ≠ exUnsorted := by
  decide

/-- Counterexample to C3 as stated: symbol `B` appears first in the input,
but the output groups start with symbol `A` — `sort_values` plus `groupby`
order the symbols in ascending lexicographic order, not first-appearance
order (ohlcv lines 203 and 212). -/
theorem C3_counterexample :
    firstAppearanceSyms cfg0 exBA = ["B", "A"] ∧
    headSymOf cfg0 (transformE cfg0 psEmpty Option.none exBA) = some "A" ∧
    outSyms cfg0 (transformE cfg0 psEmpty Option.none exBA) = some ["A", "B"] ∧
    (["A", "B"] : List String) ≠ ["B", "A"] := by
  decide

/-- Counterexample to C1 as stated: with a zero prior close, the pct-change
return `returns_1d` and the rate-of-change `roc_1` evaluate to positive
infinity, not null — these two denominators carry no `replace(0, nan)`
guard (ohlcv lines 228 and 256-258). -/
theorem C1_counterexample :
    featOf (transformE cfg0 psEmpty Option.none exZeroClose) "returns_1d" 1 = some F.inf ∧
    featOf (transformE cfg0 psRoc1 Option.none exZeroClose) "roc_1" 1 = some F.inf ∧
    F.inf ≠ F.nan := by
  decide

/-- Counterexample to C2 as stated: `ema_10` is already non-null on a
symbol's very first row (`ewm(span=10, adjust=False)` has no warm-up),
while the claim requires the first `10 - 1` rows to be null; `sma_10` by
contrast is null there (ohlcv line 239). -/
theorem C2_counterexample :
    featOf (transformE cfg0 psMa10 Option.none exOneBar) "ema_10" 0 = some (F.num 5) ∧
    featOf (transformE cfg0 psMa10 Option.none exOneBar) "sma_10" 0 = some F.nan ∧
    (0 : ℕ) < 10 - 1 ∧ F.num 5 ≠ F.nan := by
  decide

/-- Counterexample to C4 as stated: with window 2 and a benchmark missing
only date `2`, `excess_return_2` is null at date `4` as well (its lookback
base is the unmatched date), and `corr_to_benchmark_2` is null at date `3`
(its window contains the unmatched date) — with the full benchmark both are
non-null there, so neighboring dates are affected, not just the unmatched
date. -/
theorem C4_counterexample :
    featOf (transformE cfg0 psBench2 (some exBenchMiss) exFive) "excess_return_2" 2 = some F.nan ∧
    featOf (transformE cfg0 psBench2 (some exBenchMiss) exFive) "excess_return_2" 4 = some F.nan ∧
    featOf (transformE cfg0 psBench2 (some exBenchFull) exFive) "excess_return_2" 4 = some (F.num 0) ∧
    featOf (transformE cfg0 psBench2 (some exBenchMiss) exFive) "corr_to_benchmark_2" 3 = some F.nan ∧
    featOf (transformE cfg0 psBench2 (some exBenchFull) exFive) "corr_to_benchmark_2" 3 = some (F.sqr 1 1) := by
  decide

/-- Division by a null is null, whatever the numerator. -/
theorem F.div_nan (x : F) : F.div x F.nan = F.nan := by cases x <;> rfl

/-- A null numerator divides to null. -/
theorem F.nan_div (x : F) : F.div F.nan x = F.nan := by cases x <;> rfl

/-- Subtracting a null gives null. -/
theorem F.sub_nan (x : F) : F.sub x F.nan = F.nan := by cases x <;> rfl

/-- Subtracting from a null gives null. -/
theorem F.nan_sub (x : F) : F.sub F.nan x = F.nan := by cases x <;> rfl

/-- Multiplying a null gives null. -/
theorem F.nan_mul (x : F) : F.mul F.nan x = F.nan := by cases x <;> rfl

/-- Multiplying by a null gives null. -/
theorem F.mul_nan (x : F) : F.mul x F.nan = F.nan := by cases x <;> rfl

/-- The standard-deviation carrier of a null variance is null. -/
theorem sqrtScaleF_nan (c : Q) : sqrtScaleF c F.nan = F.nan := rfl

/-- Length facts for the series operations. -/
@[simp] theorem length_mapF (f : F → F) (xs : List F) : (mapF f xs).length = xs.length := by
  simp [mapF]

@[simp] theorem length_map2F (f : F → F → F) (xs ys : List F) :
    (map2F f xs ys).length = max xs.length ys.length := by
  simp [map2F]

@[simp] theorem length_shiftF (n : ℕ) (xs : List F) : (shiftF n xs).length = xs.length := by
  simp [shiftF]

@[simp] theorem length_pctChange (n : ℕ) (xs : List F) :
    (pctChange n xs).length = xs.length := by
  simp [pctChange]

@[simp] theorem length_rollingMean (w : ℕ) (xs : List F) :
    (rollingMean w xs).length = xs.length := by
  simp [rollingMean]

@[simp] theorem length_rollingMin (w : ℕ) (xs : List F) :
    (rollingMin w xs).length = xs.length := by
  simp [rollingMin]

@[simp] theorem length_rollingStdScaled (c : Q) (w : ℕ) (xs : List F) :
    (rollingStdScaled c w xs).length = xs.length := by
  simp [rollingStdScaled]

@[simp] theorem length_rollingCorr (w : ℕ) (xs ys : List F) :
    (rollingCorr w xs ys).length = xs.length := by
  simp [rollingCorr]

@[simp] theorem length_replace0 (xs : List F) : (replace0 xs).length = xs.length := by
  simp [replace0]

@[simp] theorem length_cummaxGo (m : Option Q) (xs : List F) :
    (cummaxGo m xs).length = xs.length := by
  induction xs generalizing m with
  | nil => rfl
  | cons x rest ih => cases x <;> simp [cummaxGo, ih]

@[simp] theorem length_cummaxF (xs : List F) : (cummaxF xs).length = xs.length := by
  simp [cummaxF]

/-- Element of a map over an index range. -/
theorem fget_map_range (f : ℕ → F) (n i : ℕ) :
    fget ((List.range n).map f) i = if i < n then f i else F.nan := by
  unfold fget
  rcases Nat.lt_or_ge i n with h | h
  · rw [if_pos h, List.get?_map, List.get?_range h]
    rfl
  · rw [if_neg (Nat.not_lt.mpr h), List.get?_map, List.get?_eq_none.mpr (by simpa using h)]
    rfl

/-- Element of an elementwise unary map. -/
theorem fget_listMap (f : F → F) (xs : List F) (i : ℕ) :
    fget (xs.map f) i = if i < xs.length then f (fget xs i) else F.nan := by
  unfold fget
  rcases Nat.lt_or_ge i xs.length with h | h
  · rw [if_pos h, List.get?_map, List.get?_eq_get h]
    rfl
  · rw [if_neg (Nat.not_lt.mpr h), List.get?_map, List.get?_eq_none.mpr h]
    rfl

/-- Element of `mapF`. -/
theorem fget_mapF (f : F → F) (xs : List F) (i : ℕ) :
    fget (mapF f xs) i = if i < xs.length then f (fget xs i) else F.nan :=
  fget_listMap f xs i

/-- Element of `replace0`: a zero becomes null, everything else stays. -/
theorem fget_replace0 (xs : List F) (i : ℕ) :
    fget (replace0 xs) i =
      if i < xs.length then (if fget xs i == F.num 0 then F.nan else fget xs i)
      else F.nan :=
  fget_listMap _ xs i

/-- Element of `map2F`. -/
theorem fget_map2F (f : F → F → F) (xs ys : List F) (i : ℕ) :
    fget (map2F f xs ys) i =
      if i < max xs.length ys.length then f (fget xs i) (fget ys i) else F.nan :=
  fget_map_range _ _ _

/-- Element of `shiftF`. -/
theorem fget_shiftF (n : ℕ) (xs : List F) (i : ℕ) :
    fget (shiftF n xs) i =
      if i < xs.length then (if i < n then F.nan else fget xs (i - n)) else F.nan :=
  fget_map_range _ _ _

/-- Element of `pctChange`. -/
theorem fget_pctChange (n : ℕ) (xs : List F) (i : ℕ) :
    fget (pctChange n xs) i =
      if i < xs.length then
        (if i < n then F.nan
          else F.sub (F.div (fget xs i) (fget xs (i - n))) (F.num 1))
      else F.nan :=
  fget_map_range _ _ _

/-- A rolling mean is null before a full window exists. -/
theorem warmup_rollingMean (w : ℕ) (xs : List F) (i : ℕ) (h : i + 1 < w) :
    fget (rollingMean w xs) i = F.nan := by
  unfold rollingMean
  rw [fget_map_range]
  by_cases hl : i < xs.length
  · simp [hl, h]
  · simp [hl]

/-- A rolling minimum is null before a full window exists. -/
theorem warmup_rollingMin (w : ℕ) (xs : List F) (i : ℕ) (h : i + 1 < w) :
    fget (rollingMin w xs) i = F.nan := by
  unfold rollingMin
  rw [fget_map_range]
  by_cases hl : i < xs.length
  · simp [hl, h]
  · simp [hl]

/-- A rolling correlation is null before a full window exists. -/
theorem warmup_rollingCorr (w : ℕ) (xs ys : List F) (i : ℕ) (h : i + 1 < w) :
    fget (rollingCorr w xs ys) i = F.nan := by
  unfold rollingCorr
  rw [fget_map_range]
  by_cases hl : i < xs.length
  · simp [hl, h]
  · simp [hl]

/-- C2 (amended).  Every rolling-window feature computed by `transform` —
simple moving averages, rate-of-change, rolling volatility of the 1-day
returns, volume moving averages and ratios, rolling drawdown minima, trend
persistence, rolling benchmark correlation — is null on a symbol's first
`W - 1` rows and can be non-null only once a full `W`-row lookback exists;
the exponential moving averages are the exception the claim overlooks: with
`adjust=False` and no `min_periods`, `ema_W` already carries the close value
on the symbol's very first row. -/
theorem C2_warmup_amended :
    (∀ (w : ℕ) (close : List F) (i : ℕ), i + 1 < w → fget (smaF w close) i = F.nan) ∧
    (∀ (p : ℕ) (close : List F) (i : ℕ), i < p → fget (rocF p close) i = F.nan) ∧
    (∀ (w : ℕ) (rets : List F) (i : ℕ), i + 1 < w → fget (volatilityF w rets) i = F.nan) ∧
    (∀ (w : ℕ) (volume : List F) (i : ℕ), i + 1 < w → fget (rollingMean w volume) i = F.nan) ∧
    (∀ (w : ℕ) (volume : List F) (i : ℕ), i + 1 < w → fget (volumeRatio w volume) i = F.nan) ∧
    (∀ (w : ℕ) (close : List F) (i : ℕ), i + 1 < w → fget (maxDrawdownF w close) i = F.nan) ∧
    (∀ (w : ℕ) (close : List F) (i : ℕ), i + 1 < w → fget (trendPersistenceF w close) i = F.nan) ∧
    (∀ (w : ℕ) (rets brets : List F) (i : ℕ), i + 1 < w →
      fget (corrToBenchmarkF w rets brets) i = F.nan) ∧
    (∀ (w : ℕ) (q : Q) (xs : List F), fget (emaF w (F.num q :: xs)) 0 = F.num q) := by
  refine ⟨?_, ?_, ?_, ?_, ?_, ?_, ?_, ?_, ?_⟩
  · intro w xs i h
    exact warmup_rollingMean w xs i h
  · intro p xs i h
    simp only [rocF]
    rw [fget_mapF]
    by_cases hl : i < (map2F F.div (map2F F.sub xs (shiftF p xs)) (shiftF p xs)).length
    · rw [if_pos hl]
      have hl2 : i < max (map2F F.sub xs (shiftF p xs)).length (shiftF p xs).length := by
        simpa using hl
      rw [fget_map2F, if_pos hl2]
      have hsh : fget (shiftF p xs) i = F.nan := by
        rw [fget_shiftF]
        by_cases h2 : i < xs.length
        · simp [h2, h]
        · simp [h2]
      rw [hsh, F.div_nan, F.nan_mul]
    · rw [if_neg hl]
  · intro w rets i h
    unfold volatilityF rollingStdScaled
    rw [fget_map_range]
    by_cases hl : i < rets.length
    · rw [if_pos hl]
      unfold rollingVarQ
      simp [h, sqrtScaleF_nan]
    · rw [if_neg hl]
  · intro w v i h
    exact warmup_rollingMean w v i h
  · intro w v i h
    unfold volumeRatio
    rw [fget_map2F]
    by_cases hl : i < max v.length (replace0 (rollingMean w v)).length
    · rw [if_pos hl]
      have hrep : fget (replace0 (rollingMean w v)) i = F.nan := by
        rw [fget_replace0]
        by_cases h2 : i < (rollingMean w v).length
        · rw [if_pos h2, warmup_rollingMean w v i h]
          rfl
        · rw [if_neg h2]
      rw [hrep, F.div_nan]
    · rw [if_neg hl]
  · intro w close i h
    exact warmup_rollingMin w (compute_drawdown close) i h
  · intro w close i h
    exact warmup_rollingMean w _ i h
  · intro w rets brets i h
    exact warmup_rollingCorr w rets brets i h
  · intro w q xs
    rfl

/-- Witness for C2 (amended): each covered feature family evaluated at a
concrete warm-up index, plus the first-row exponential average. -/
theorem C2_warmup_amended_witness :
    (0 + 1 < 3 ∧ fget (smaF 3 [F.num 1, F.num 2]) 0 = F.nan) ∧
    (1 < 2 ∧ fget (rocF 2 [F.num 1, F.num 2]) 1 = F.nan) ∧
    (1 + 1 < 3 ∧ fget (volatilityF 3 [F.num 1, F.num 2]) 1 = F.nan) ∧
    (0 + 1 < 2 ∧ fget (volumeRatio 2 [F.num 4, F.num 5]) 0 = F.nan) ∧
    (0 + 1 < 2 ∧ fget (maxDrawdownF 2 [F.num 4, F.num 5]) 0 = F.nan) ∧
    (0 + 1 < 2 ∧ fget (trendPersistenceF 2 [F.num 4, F.num 5]) 0 = F.nan) ∧
    (0 + 1 < 2 ∧ fget (corrToBenchmarkF 2 [F.num 4, F.num 5] [F.num 1, F.num 3]) 0 = F.nan) ∧
    fget (emaF 10 (F.num 5 :: [])) 0 = F.num 5 :=
  ⟨⟨by decide, C2_warmup_amended.1 3 [F.num 1, F.num 2] 0 (by decide)⟩,
    ⟨by decide, C2_warmup_amended.2.1 2 [F.num 1, F.num 2] 1 (by decide)⟩,
    ⟨by decide, C2_warmup_amended.2.2.1 3 [F.num 1, F.num 2] 1 (by decide)⟩,
    ⟨by decide, C2_warmup_amended.2.2.2.2.1 2 [F.num 4, F.num 5] 0 (by decide)⟩,
    ⟨by decide, C2_warmup_amended.2.2.2.2.2.1 2 [F.num 4, F.num 5] 0 (by decide)⟩,
    ⟨by decide, C2_warmup_amended.2.2.2.2.2.2.1 2 [F.num 4, F.num 5] 0 (by decide)⟩,
    ⟨by decide, C2_warmup_amended.2.2.2.2.2.2.2.1 2 [F.num 4, F.num 5] [F.num 1, F.num 3] 0 (by decide)⟩,
    C2_warmup_amended.2.2.2.2.2.2.2.2 10 5 []⟩

/-- Membership version of `fget`: a non-null read is in range. -/
theorem lt_length_of_fget_ne_nan (xs : List F) (i : ℕ) (h : fget xs i ≠ F.nan) :
    i < xs.length := by
  by_contra hge
  apply h
  unfold fget
  rw [List.get?_eq_none.mpr (Nat.le_of_not_lt hge)]
  rfl

/-- C1 (amended).  Every derived feature whose denominator the source guards
with `replace(0, nan)` — the relative distances to the moving averages, the
intrabar range over close, the open-to-close change, the crossover gap over
the long average, the volume ratio over its moving average, and the drawdown
over the running peak — is null whenever that denominator is exactly zero;
the rate-of-change features and the plain pct-change returns carry no such
guard and instead produce a signed infinity on a zero prior close (with nan
for `0/0`), as the counterexample shows. -/
theorem C1_zero_denominator_amended :
    (∀ (close ma : List F) (i : ℕ), fget ma i = F.num 0 →
      fget (priceVsMa close ma) i = F.nan) ∧
    (∀ (high low close : List F) (i : ℕ), fget close i = F.num 0 →
      fget (highLowRange high low close) i = F.nan) ∧
    (∀ (close open_ : List F) (i : ℕ), fget open_ i = F.num 0 →
      fget (closeOpenChange close open_) i = F.nan) ∧
    (∀ (smaS smaL : List F) (i : ℕ), fget smaL i = F.num 0 →
      fget (smaPairDiff smaS smaL) i = F.nan) ∧
    (∀ (w : ℕ) (volume : List F) (i : ℕ), fget (rollingMean w volume) i = F.num 0 →
      fget (volumeRatio w volume) i = F.nan) ∧
    (∀ (close : List F) (i : ℕ), fget (cummaxF close) i = F.num 0 →
      fget (compute_drawdown close) i = F.nan) := by
  have key : ∀ (num den : List F) (i : ℕ), fget den i = F.num 0 →
      fget (map2F F.div num (replace0 den)) i = F.nan := by
    intro num den i h
    have hi : i < den.length :=
      lt_length_of_fget_ne_nan den i (by rw [h]; intro hc; cases hc)
    have hrep : fget (replace0 den) i = F.nan := by
      rw [fget_replace0, if_pos hi, h]
      rfl
    rw [fget_map2F]
    by_cases hl : i < max num.length (replace0 den).length
    · rw [if_pos hl, hrep, F.div_nan]
    · rw [if_neg hl]
  refine ⟨?_, ?_, ?_, ?_, ?_, ?_⟩
  · intro close ma i h
    exact key _ ma i h
  · intro high low close i h
    exact key _ close i h
  · intro close open_ i h
    exact key _ open_ i h
  · intro smaS smaL i h
    exact key _ smaL i h
  · intro w volume i h
    exact key _ _ i h
  · intro close i h
    exact key _ _ i h

/-- Witness for C1 (amended): a constant-zero close makes `sma_2` zero at a
full window, and each guarded feature is null there. -/
theorem C1_zero_denominator_amended_witness :
    (fget (smaF 2 [F.num 0, F.num 0]) 1 = F.num 0 ∧
      fget (priceVsMa [F.num 0, F.num 0] (smaF 2 [F.num 0, F.num 0])) 1 = F.nan) ∧
    (fget [F.num 0, F.num 0] 1 = F.num 0 ∧
      fget (highLowRange [F.num 2, F.num 2] [F.num 1, F.num 1] [F.num 0, F.num 0]) 1 = F.nan) ∧
    (fget (closeOpenChange [F.num 3, F.num 3] [F.num 0, F.num 0]) 1 = F.nan) ∧
    (fget (smaPairDiff [F.num 1, F.num 1] [F.num 0, F.num 0]) 1 = F.nan) ∧
    (fget (volumeRatio 2 [F.num 0, F.num 0]) 1 = F.nan) ∧
    (fget (compute_drawdown [F.num 0, F.num 1]) 0 = F.nan) :=
  ⟨⟨by decide, C1_zero_denominator_amended.1 [F.num 0, F.num 0] _ 1 (by decide)⟩,
    ⟨by decide, C1_zero_denominator_amended.2.1 [F.num 2, F.num 2] [F.num 1, F.num 1]
      [F.num 0, F.num 0] 1 (by decide)⟩,
    C1_zero_denominator_amended.2.2.1 [F.num 3, F.num 3] [F.num 0, F.num 0] 1 (by decide),
    C1_zero_denominator_amended.2.2.2.1 [F.num 1, F.num 1] [F.num 0, F.num 0] 1 (by decide),
    C1_zero_denominator_amended.2.2.2.2.1 2 [F.num 0, F.num 0] 1 (by decide),
    C1_zero_denominator_amended.2.2.2.2.2 [F.num 0, F.num 1] 0 (by decide)⟩

/-- A window list containing a null makes the rational extraction fail. -/
theorem allNums_eq_none_of_nan (l : List F) (h : F.nan ∈ l) :
    allNums l = Option.none := by
  induction l with
  | nil => cases h
  | cons x rest ih =>
    cases x with
    | num q =>
      have hrest : F.nan ∈ rest := by
        rcases List.mem_cons.mp h with h1 | h1
        · simp at h1
        · exact h1
      unfold allNums
      rw [ih hrest]
      rfl
    | nan => rfl
    | inf => rfl
    | neginf => rfl
    | sqr a b => rfl
    | lg q => rfl

/-- A null at an in-window position is a member of the trailing window. -/
theorem nan_mem_windowAt (xs : List F) (w i j : ℕ) (h1 : i + 1 - w ≤ j)
    (h3 : j ≤ i) (h4 : fget xs j = F.nan) : F.nan ∈ windowAt xs w i := by
  unfold windowAt
  have hk : j - (i + 1 - w) < w := by omega
  refine List.mem_map.mpr ⟨j - (i + 1 - w), List.mem_range.mpr hk, ?_⟩
  have he : i + 1 - w + (j - (i + 1 - w)) = j := by omega
  rw [he, h4]

/-- The aligned benchmark close at a row is the date lookup of that row's
date. -/
theorem benchLookup_aligned (b : Benchmark) (dates : List Int) (i : ℕ) (d : Int)
    (hd : dates.get? i = some d) :
    fget (dates.map (benchLookup b)) i = benchLookup b d := by
  unfold fget
  rw [List.get?_map, hd]
  rfl

/-- C4 (amended).  An unmatched symbol date never raises an error and makes
the aligned benchmark close null exactly there; but the nulls it induces in
the derived features are wider than the claim says: `excess_return_w` is
null at the unmatched date and again `w` rows later (where that date is the
lookback base) while rows whose current and base positions are both matched
are unaffected, and `corr_to_benchmark_w` is null at every row whose
trailing `w`-window contains the unmatched date's null return. -/
theorem C4_benchmark_alignment_amended :
    (∀ (b : Benchmark) (dates : List Int) (i : ℕ) (d : Int),
      dates.get? i = some d → b.find? (fun p => p.1 == d) = Option.none →
      fget (dates.map (benchLookup b)) i = F.nan) ∧
    (∀ (b : Benchmark) (dates : List Int) (i : ℕ) (d : Int) (p : Int × Q),
      dates.get? i = some d → b.find? (fun pr => pr.1 == d) = some p →
      fget (dates.map (benchLookup b)) i = F.num p.2) ∧
    (∀ (w : ℕ) (close bclose : List F) (i : ℕ),
      fget bclose i = F.nan ∨ fget bclose (i - w) = F.nan →
      fget (excessReturnF w close bclose) i = F.nan) ∧
    (∀ (w : ℕ) (rets brets : List F) (i j : ℕ),
      i + 1 - w ≤ j → j ≤ i → fget brets j = F.nan →
      fget (corrToBenchmarkF w rets brets) i = F.nan) ∧
    (∀ (w : ℕ) (close b1 b2 : List F) (i : ℕ), b1.length = b2.length →
      fget b1 i = fget b2 i → fget b1 (i - w) = fget b2 (i - w) →
      fget (excessReturnF w close b1) i = fget (excessReturnF w close b2) i) ∧
    (∀ (cfg : TransformConfig) (ps : DailyOhlcvParams) (b : Benchmark) (t : Table),
      (transformE cfg ps (some b) t).toOption.isSome =
        (transformE cfg ps Option.none t).toOption.isSome) := by
  refine ⟨?_, ?_, ?_, ?_, ?_, ?_⟩
  · intro b dates i d hd hfind
    rw [benchLookup_aligned b dates i d hd]
    unfold benchLookup
    rw [hfind]
  · intro b dates i d p hd hfind
    rw [benchLookup_aligned b dates i d hd]
    unfold benchLookup
    rw [hfind]
  · intro w close bclose i h
    unfold excessReturnF
    rw [fget_map2F]
    by_cases hl : i < max (pctChange w close).length (pctChange w bclose).length
    · rw [if_pos hl]
      have hb : fget (pctChange w bclose) i = F.nan := by
        rw [fget_pctChange]
        by_cases h2 : i < bclose.length
        · rw [if_pos h2]
          by_cases h3 : i < w
          · rw [if_pos h3]
          · rw [if_neg h3]
            rcases h with h | h
            · rw [h, F.nan_div, F.nan_sub]
            · rw [h, F.div_nan, F.nan_sub]
        · rw [if_neg h2]
      rw [hb, F.sub_nan]
    · rw [if_neg hl]
  · intro w rets brets i j hj1 hj2 h
    unfold corrToBenchmarkF rollingCorr
    rw [fget_map_range]
    by_cases hl : i < rets.length
    · rw [if_pos hl]
      split
      · rfl
      · have hB : allNums (windowAt brets w i) = Option.none :=
          allNums_eq_none_of_nan _ (nan_mem_windowAt brets w i j hj1 hj2 h)
        rw [hB]
        cases hA : allNums (windowAt rets w i) <;> rfl
    · rw [if_neg hl]
  · intro w close b1 b2 i hlen h1 h2
    unfold excessReturnF
    rw [fget_map2F, fget_map2F, length_pctChange, length_pctChange, length_pctChange, hlen]
    by_cases hl : i < max close.length b2.length
    · rw [if_pos hl, if_pos hl]
      congr 1
      rw [fget_pctChange, fget_pctChange, hlen, h1, h2]
    · rw [if_neg hl, if_neg hl]
  · intro cfg ps b t
    by_cases h1 : reqTransformMissing cfg t = true
    · simp [transformE, transformFull, h1]
    · by_cases h2 : t.rows.isEmpty = true
      · simp [transformE, transformFull, h1, h2]
      · by_cases h3 : datesParse cfg t = true
        · simp [transformE, transformFull, h1, h2, h3, Except.toOption]
        · simp [transformE, transformFull, h1, h2, h3, Except.toOption]

/-- Witness for C4 (amended): the five-date symbol against the benchmark
missing date `2`, checked at the unmatched row, at the row two later, at an
unaffected row, and inside the smeared correlation window, plus the
never-raises conjunct. -/
theorem C4_benchmark_alignment_amended_witness :
    ([(0 : Int), 1, 2, 3, 4].get? 2 = some 2 ∧
      (as_benchmark_series exBenchMiss).find? (fun p => p.1 == (2 : Int)) = Option.none ∧
      fget ([(0 : Int), 1, 2, 3, 4].map (benchLookup (as_benchmark_series exBenchMiss))) 2 = F.nan) ∧
    (fget (excessReturnF 2 [F.num 1, F.num 2, F.num 3, F.num 4, F.num 5]
      [F.num 1, F.num 2, F.nan, F.num 4, F.num 5]) 4 = F.nan) ∧
    (fget (corrToBenchmarkF 2 [F.nan, F.num 1, F.num 1, F.num 1, F.num 1]
      [F.num 1, F.num 2, F.nan, F.num 4, F.num 5]) 3 = F.nan) ∧
    (fget (excessReturnF 2 [F.num 1, F.num 2, F.num 3, F.num 4, F.num 5]
        [F.num 1, F.num 2, F.nan, F.num 4, F.num 5]) 1 =
      fget (excessReturnF 2 [F.num 1, F.num 2, F.num 3, F.num 4, F.num 5]
        [F.num 1, F.num 2, F.num 9, F.num 4, F.num 5]) 1) ∧
    ((transformE cfg0 psBench2 (some exBenchMiss) exFive).toOption.isSome =
      (transformE cfg0 psBench2 Option.none exFive).toOption.isSome) :=
  ⟨⟨by decide, by decide,
      C4_benchmark_alignment_amended.1 (as_benchmark_series exBenchMiss)
        [(0 : Int), 1, 2, 3, 4] 2 2 (by decide) (by decide)⟩,
    C4_benchmark_alignment_amended.2.2.1 2 [F.num 1, F.num 2, F.num 3, F.num 4, F.num 5]
      [F.num 1, F.num 2, F.nan, F.num 4, F.num 5] 4 (Or.inr (by decide)),
    C4_benchmark_alignment_amended.2.2.2.1 2 [F.nan, F.num 1, F.num 1, F.num 1, F.num 1]
      [F.num 1, F.num 2, F.nan, F.num 4, F.num 5] 3 2 (by decide) (by decide) (by decide),
    C4_benchmark_alignment_amended.2.2.2.2.1 2 [F.num 1, F.num 2, F.num 3, F.num 4, F.num 5]
      [F.num 1, F.num 2, F.nan, F.num 4, F.num 5] [F.num 1, F.num 2, F.num 9, F.num 4, F.num 5]
      1 (by decide) (by decide) (by decide),
    C4_benchmark_alignment_amended.2.2.2.2.2 cfg0 psBench2 exBenchMiss exFive⟩

/-- Insertion is a permutation of consing. -/
theorem perm_insertOrd (le : α → α → Bool) (x : α) (l : List α) :
    (insertOrd le x l).Perm (x :: l) := by
  induction l with
  | nil => exact List.Perm.refl _
  | cons y ys ih =>
    unfold insertOrd
    split
    · exact List.Perm.refl _
    · exact (ih.cons y).trans (List.Perm.swap x y ys)

/-- The insertion sort is a permutation of its input. -/
theorem perm_insSort (le : α → α → Bool) (l : List α) : (insSort le l).Perm l := by
  induction l with
  | nil => exact List.Perm.refl _
  | cons x xs ih => exact (perm_insertOrd le x (insSort le xs)).trans (ih.cons x)

/-- Membership through insertion. -/
theorem mem_insertOrd (le : α → α → Bool) (x z : α) (l : List α) :
    z ∈ insertOrd le x l ↔ z = x ∨ z ∈ l := by
  rw [(perm_insertOrd le x l).mem_iff, List.mem_cons]

/-- Inserting into a sorted list keeps it sorted, for a total transitive
comparison. -/
theorem pairwise_insertOrd (le : α → α → Bool)
    (htrans : ∀ a b c, le a b = true → le b c = true → le a c = true)
    (htot : ∀ a b, le a b = true ∨ le b a = true)
    (x : α) (l : List α) (hl : l.Pairwise (fun a b => le a b = true)) :
    (insertOrd le x l).Pairwise (fun a b => le a b = true) := by
  induction l with
  | nil => simp [insertOrd]
  | cons y ys ih =>
    rw [List.pairwise_cons] at hl
    unfold insertOrd
    split
    · next hxy =>
      rw [List.pairwise_cons]
      refine ⟨?_, List.pairwise_cons.mpr hl⟩
      intro z hz
      rcases List.mem_cons.mp hz with rfl | hz2
      · exact hxy
      · exact htrans x y z hxy (hl.1 z hz2)
    · next hxy =>
      rw [List.pairwise_cons]
      refine ⟨?_, ih hl.2⟩
      intro z hz
      rcases (mem_insertOrd le x z ys).mp hz with rfl | hz2
      · rcases htot z y with h | h
        · exact absurd h hxy
        · exact h
      · exact hl.1 z hz2

/-- The insertion sort sorts, for a total transitive comparison. -/
theorem pairwise_insSort (le : α → α → Bool)
    (htrans : ∀ a b c, le a b = true → le b c = true → le a c = true)
    (htot : ∀ a b, le a b = true ∨ le b a = true) (l : List α) :
    (insSort le l).Pairwise (fun a b => le a b = true) := by
  induction l with
  | nil => simp [insSort]
  | cons x xs ih => exact pairwise_insertOrd le htrans htot x _ ih

/-- Transitivity of the codepoint-list order. -/
theorem natListLt_trans : ∀ (a b c : List ℕ), natListLt a b = true →
    natListLt b c = true → natListLt a c = true
  | [], [], _, h1, _ => by simp [natListLt] at h1
  | [], _ :: _, [], _, h2 => by simp [natListLt] at h2
  | [], _ :: _, _ :: _, _, _ => rfl
  | _ :: _, [], _, h1, _ => by simp [natListLt] at h1
  | _ :: _, _ :: _, [], _, h2 => by simp [natListLt] at h2
  | a :: as2, b :: bs, c :: cs, h1, h2 => by
    simp only [natListLt, Bool.or_eq_true, Bool.and_eq_true, decide_eq_true_eq,
      beq_iff_eq] at h1 h2 ⊢
    rcases h1 with h1 | ⟨hab, h1⟩
    · rcases h2 with h2 | ⟨hbc, h2⟩
      · exact Or.inl (Nat.lt_trans h1 h2)
      · exact Or.inl (hbc ▸ h1)
    · subst hab
      rcases h2 with h2 | ⟨hbc, h2⟩
      · exact Or.inl h2
      · exact Or.inr ⟨hbc, natListLt_trans _ _ _ h1 h2⟩

/-- Two codepoint lists neither of which is below the other are equal. -/
theorem natListLt_eq_of_not : ∀ (a b : List ℕ), natListLt a b = false →
    natListLt b a = false → a = b
  | [], [], _, _ => rfl
  | [], _ :: _, h1, _ => by simp [natListLt] at h1
  | _ :: _, [], _, h2 => by simp [natListLt] at h2
  | a :: as2, b :: bs, h1, h2 => by
    simp only [natListLt, Bool.or_eq_false_iff, Bool.and_eq_false_iff,
      decide_eq_false_iff_not, beq_eq_false_iff_ne, ne_eq] at h1 h2
    have hab : a = b := Nat.le_antisymm (Nat.not_lt.mp h2.1) (Nat.not_lt.mp h1.1)
    subst hab
    have h1r : natListLt as2 bs = false := by
      rcases h1.2 with h | h
      · exact absurd rfl h
      · exact h
    have h2r : natListLt bs as2 = false := by
      rcases h2.2 with h | h
      · exact absurd rfl h
      · exact h
    rw [natListLt_eq_of_not as2 bs h1r h2r]

/-- Transitivity of the string comparison. -/
theorem strLt_trans (a b c : String) (h1 : strLt a b = true) (h2 : strLt b c = true) :
    strLt a c = true :=
  natListLt_trans _ _ _ h1 h2

/-- Two strings neither of which is below the other are equal. -/
theorem strLt_eq_of_not (a b : String) (h1 : strLt a b = false)
    (h2 : strLt b a = false) : a = b := by
  have hdata := natListLt_eq_of_not _ _ h1 h2
  apply String.ext
  have hinj : Function.Injective Char.toNat := by
    intro c d h
    exact Char.ext (UInt32.ext h)
  exact List.map_injective_iff.mpr hinj hdata

/-- The transform sort comparison is total. -/
theorem rowLeAt_total (t : Table) (sn dn : String) (r1 r2 : List Cell) :
    rowLeAt t sn dn r1 r2 = true ∨ rowLeAt t sn dn r2 r1 = true := by
  unfold rowLeAt
  cases h1 : strLt (keyStrAt t sn r1) (keyStrAt t sn r2) with
  | true => exact Or.inl (by simp [h1])
  | false =>
    cases h2 : strLt (keyStrAt t sn r2) (keyStrAt t sn r1) with
    | true => exact Or.inr (by simp [h2])
    | false =>
      have he : keyStrAt t sn r1 = keyStrAt t sn r2 := strLt_eq_of_not _ _ h1 h2
      rcases Int.le_total (keyDateAt t dn r1) (keyDateAt t dn r2) with h | h
      · exact Or.inl (by simp [h1, he, h])
      · exact Or.inr (by simp [h2, he, h])

/-- The transform sort comparison is transitive. -/
theorem rowLeAt_trans (t : Table) (sn dn : String) (r1 r2 r3 : List Cell)
    (h1 : rowLeAt t sn dn r1 r2 = true) (h2 : rowLeAt t sn dn r2 r3 = true) :
    rowLeAt t sn dn r1 r3 = true := by
  unfold rowLeAt at h1 h2 ⊢
  simp only [Bool.or_eq_true, Bool.and_eq_true, beq_iff_eq, decide_eq_true_eq] at h1 h2 ⊢
  rcases h1 with h1 | ⟨he1, hd1⟩
  · rcases h2 with h2 | ⟨he2, hd2⟩
    · exact Or.inl (strLt_trans _ _ _ h1 h2)
    · exact Or.inl (he2 ▸ h1)
  · rcases h2 with h2 | ⟨he2, hd2⟩
    · rw [he1]
      exact Or.inl h2
    · exact Or.inr ⟨he1.trans he2, le_trans hd1 hd2⟩

/-- Flattening the contiguous runs returns the original row list. -/
theorem flatten_runsBy (key : List Cell → String) : ∀ (l : List (List Cell)),
    (runsBy key l).flatten = l
  | [] => rfl
  | r :: rs => by
    have ih := flatten_runsBy key rs
    unfold runsBy
    cases hr : runsBy key rs with
    | nil =>
      rw [hr] at ih
      simp only [List.flatten_nil] at ih
      change ([[r]] : List (List (List Cell))).flatten = r :: rs
      simp [← ih]
    | cons g gs =>
      rw [hr] at ih
      cases g with
      | nil =>
        change ([r] :: gs).flatten = r :: rs
        simp only [List.flatten_cons, List.nil_append] at ih
        simp [ih]
      | cons r2 grest =>
        change (if key r == key r2 then (r :: r2 :: grest) :: gs
          else [r] :: (r2 :: grest) :: gs).flatten = r :: rs
        simp only [List.flatten_cons] at ih
        split <;> simp [ih]

/-- `findIdx?` ignores an index-dependent rewrite that preserves the
predicate. -/
theorem findIdx?_mapIdx : ∀ (l : List α) (g : ℕ → α → α) (p : α → Bool),
    (∀ j c, p (g j c) = p c) → ∀ st : ℕ,
    List.findIdx? p (List.mapIdx g l) st = List.findIdx? p l st
  | [], _, _, _, _ => rfl
  | a :: l, g, p, hg, st => by
    rw [List.mapIdx_cons, List.findIdx?_cons, List.findIdx?_cons, hg]
    split
    · rfl
    · exact findIdx?_mapIdx l (fun i => g (i + 1)) p (fun j c => hg (j + 1) c) (st + 1)

/-- `setColAt` does not change column names, hence not column lookups. -/
theorem colIdx_setColAt (t : Table) (i : ℕ) (dt : Dtype) (f : Cell → Cell)
    (n : String) : (setColAt t i dt f).colIdx n = t.colIdx n := by
  unfold Table.colIdx setColAt
  exact findIdx?_mapIdx t.cols _ _ (fun j c => by split <;> rfl) 0

/-- The transform date coercion does not change column lookups. -/
theorem colIdx_coerceDateColT (cfg : TransformConfig) (t : Table) (n : String) :
    (coerceDateColT cfg t).colIdx n = t.colIdx n := by
  unfold coerceDateColT
  split
  · exact colIdx_setColAt t _ _ _ n
  · rfl

/-- An index-dependent cell rewrite that fixes every stored cell is the
identity. -/
theorem mapIdx_id_of (l : List α) (g : ℕ → α → α)
    (h : ∀ j a, l.get? j = some a → g j a = a) : l.mapIdx g = l := by
  rw [List.mapIdx_eq_enum_map]
  have h2 : ∀ p ∈ l.enum, Function.uncurry g p = Prod.snd p := by
    intro p hp
    exact h p.1 p.2 (List.mem_enum_iff_get?.mp hp)
  rw [List.map_congr_left h2]
  exact List.enum_map_snd l

/-- With every date cell an actual date, the transform date coercion keeps
every row unchanged (only the column dtype moves). -/
theorem rows_coerceDateColT (cfg : TransformConfig) (t : Table)
    (hd : datesParse cfg t = true) : (coerceDateColT cfg t).rows = t.rows := by
  rw [datesParse, List.all_eq_true] at hd
  unfold coerceDateColT
  cases hi : t.colIdx cfg.date_col with
  | none => rfl
  | some i =>
    show (setColAt t i Dtype.datetime toDatetimeCell).rows = t.rows
    unfold setColAt
    have hrow : ∀ r ∈ t.rows,
        (r.mapIdx fun j c => if j == i then toDatetimeCell c else c) = r := by
      intro r hr
      apply mapIdx_id_of
      intro j c hc
      by_cases hj : j = i
      · subst hj
        have hcell := hd r hr
        simp only [Table.cellOf, hi] at hcell
        have hc2 : cellAt r j = c := by
          unfold cellAt
          rw [hc]
          rfl
        rw [hc2] at hcell
        simp only [beq_self_eq_true, if_true]
        cases c with
        | some v =>
          cases v with
          | date d => rfl
          | str s => simp at hcell
          | num q => simp at hcell
        | none => simp at hcell
      · simp [hj]
    calc (t.rows.map fun r => r.mapIdx fun j c => if j == i then toDatetimeCell c else c)
        = t.rows.map (fun r => r) := List.map_congr_left hrow
      _ = t.rows := List.map_id t.rows

/-- The sort key functions only inspect column positions, which the date
coercion preserves. -/
theorem rowLeAt_coerceDateColT (cfg : TransformConfig) (t : Table) :
    rowLeAt (coerceDateColT cfg t) cfg.symbol_col cfg.date_col =
      rowLeAt t cfg.symbol_col cfg.date_col := by
  funext r1 r2
  unfold rowLeAt keyStrAt keyDateAt Table.cellOf
  rw [colIdx_coerceDateColT, colIdx_coerceDateColT]

/-- Projecting the group component back out of the per-group feature pairs. -/
theorem flatten_map_fst {β : Type} (f : List (List Cell) → β)
    (gs : List (List (List Cell))) :
    ((gs.map (fun g => (g, f g))).map Prod.fst).flatten = gs.flatten := by
  rw [List.map_map]
  have h : ∀ g ∈ gs, (Prod.fst ∘ fun g2 => (g2, f g2)) g = g := by
    intro g _
    rfl
  rw [List.map_congr_left h]
  rw [show (List.map (fun a => a) gs) = List.map id gs from rfl, List.map_id]

/-- C3 (amended).  `transform` never drops a row: the output rows are
exactly a permutation of the input rows.  But their order is the
`(symbol, date)` lexicographic sort — symbol-major in ascending symbol
order with dates ascending within each symbol — not the symbol
first-appearance order the claim states (the counterexample shows the
difference). -/
theorem C3_rows_sorted_amended :
    ∀ (cfg : TransformConfig) (ps : DailyOhlcvParams) (bench : Option Benchmark)
      (t : Table),
    match transformE cfg ps bench t with
    | Except.ok ft =>
      ft.rows = insSort (rowLeAt t cfg.symbol_col cfg.date_col) t.rows ∧
      ft.rows.Perm t.rows ∧
      List.Pairwise (fun r1 r2 => rowLeAt t cfg.symbol_col cfg.date_col r1 r2 = true)
        ft.rows
    | Except.error _ => True := by
  intro cfg ps bench t
  cases h : transformE cfg ps bench t with
  | error e => trivial
  | ok ft =>
    unfold transformE transformFull at h
    split at h
    · simp at h
    · split at h
      · have hemp : t.rows.isEmpty = true := by assumption
        have heq := Except.ok.inj h
        subst heq
        have ht : t.rows = [] := List.isEmpty_iff.mp hemp
        refine ⟨?_, List.Perm.refl _, ?_⟩
        · show t.rows = insSort (rowLeAt t cfg.symbol_col cfg.date_col) t.rows
          rw [ht]
          rfl
        · show List.Pairwise _ t.rows
          rw [ht]
          exact List.Pairwise.nil
      · split at h
        · simp at h
        · next h3 =>
          have hd : datesParse cfg t = true := by
            revert h3
            cases datesParse cfg t <;> simp
          have heq := Except.ok.inj h
          subst heq
          simp only [rebind, inplace, id_eq]
          refine ⟨?_, ?_, ?_⟩
          · rw [flatten_map_fst, flatten_runsBy]
            simp only [sortByKeyAt]
            rw [rowLeAt_coerceDateColT, rows_coerceDateColT cfg t hd]
          · rw [flatten_map_fst, flatten_runsBy]
            simp only [sortByKeyAt]
            rw [rowLeAt_coerceDateColT, rows_coerceDateColT cfg t hd]
            exact perm_insSort _ _
          · rw [flatten_map_fst, flatten_runsBy]
            simp only [sortByKeyAt]
            rw [rowLeAt_coerceDateColT, rows_coerceDateColT cfg t hd]
            exact pairwise_insSort _ (rowLeAt_trans t _ _) (rowLeAt_total t _ _) _

/-- Zero over anything normalises to zero. -/
theorem Q.norm_zero (m : Int) : Q.norm 0 m = 0 := by
  unfold Q.norm
  split
  · rfl
  · next hm =>
    simp only [neg_zero, ite_self, Int.natAbs_zero, Nat.gcd_zero_left, Int.zero_ediv]
    rw [Nat.div_self (Int.natAbs_pos.mpr hm)]
    rfl

/-- Division with a zero numerator is zero in `Q`. -/
theorem Q.zero_divQ (x : Q) : (0 : Q) / x = 0 := by
  show Q.div 0 x = 0
  unfold Q.div
  have h1 : (0 : Q).n * (x.d : Int) = 0 := by
    rw [show (0 : Q).n = 0 from rfl, Int.zero_mul]
  have h2 : ((0 : Q).d : Int) * x.n = x.n := by
    rw [show ((0 : Q).d : Int) = 1 from rfl, Int.one_mul]
  rw [h1, h2]
  exact Q.norm_zero x.n

/-- In a table with no nulls, every in-range cell is populated. -/
theorem cellAt_isSome_of_noNulls (t : Table) (hnn : noNulls t = true)
    {r : List Cell} (hr : r ∈ t.rows) {i : ℕ} (hi : i < t.cols.length) :
    (cellAt r i).isSome = true := by
  rw [noNulls, List.all_eq_true] at hnn
  have h2 := hnn r hr
  rw [List.all_eq_true] at h2
  exact h2 i (List.mem_range.mpr hi)

/-- A resolved column index is in range. -/
theorem colIdx_lt_of_eq_some (t : Table) (n : String) {i : ℕ}
    (h : t.colIdx n = some i) : i < t.cols.length :=
  (List.findIdx?_eq_some_iff_findIdx_eq.mp h).1

/-- A present column has a resolvable index. -/
theorem colIdx_isSome_of_hasCol (t : Table) (n : String) (h : t.hasCol n = true) :
    ∃ i, t.colIdx n = some i := by
  rw [Table.hasCol] at h
  rw [Table.colIdx]
  have h2 : (t.cols.findIdx? (fun c => c.name == n)).isSome = true := by
    rw [List.findIdx?_isSome]
    exact h
  exact Option.isSome_iff_exists.mp h2

/-- In a table with no nulls, every present named column reads populated. -/
theorem cellOf_isSome_of_noNulls (t : Table) (hnn : noNulls t = true)
    (n : String) (hc : t.hasCol n = true) {r : List Cell} (hr : r ∈ t.rows) :
    (t.cellOf r n).isSome = true := by
  obtain ⟨i, hi⟩ := colIdx_isSome_of_hasCol t n hc
  rw [Table.cellOf, hi]
  exact cellAt_isSome_of_noNulls t hnn hr (colIdx_lt_of_eq_some t n hi)

/-- When the schema check passes, each required column is present. -/
theorem hasCol_of_reqClean (t : Table) (hreq : reqCleanMissing t = false)
    {n : String} (hn : n ∈ requiredCleanCols) : t.hasCol n = true := by
  have h2 : requiredCleanCols.all t.hasCol = true := by
    revert hreq
    rw [reqCleanMissing]
    cases requiredCleanCols.all t.hasCol
    · intro h
      exact absurd h (by decide)
    · intro _
      rfl
  exact List.all_eq_true.mp h2 n hn

/-- The key-null row drop keeps every row of a table with no nulls. -/
theorem dropKeyNa_of_noNulls (t : Table) (hnn : noNulls t = true)
    (hreq : reqCleanMissing t = false) : dropKeyNa t = t := by
  have hfil : t.rows.filter (fun r =>
      (t.cellOf r groupCol).isSome && (t.cellOf r dateCol).isSome) = t.rows := by
    apply List.filter_eq_self.mpr
    intro r hr
    rw [Bool.and_eq_true]
    exact ⟨cellOf_isSome_of_noNulls t hnn groupCol
        (hasCol_of_reqClean t hreq (by decide)) hr,
      cellOf_isSome_of_noNulls t hnn dateCol
        (hasCol_of_reqClean t hreq (by decide)) hr⟩
  unfold dropKeyNa
  rw [hfil]

/-- The no-bar row drop keeps every row of a table with no nulls. -/
theorem dropNoBar_of_noNulls (t : Table) (hnn : noNulls t = true)
    (hreq : reqCleanMissing t = false) : dropNoBar t = t := by
  have hfil : t.rows.filter (fun r => !(ohlcAllNa t r)) = t.rows := by
    apply List.filter_eq_self.mpr
    intro r hr
    have hop : (t.cellOf r "open").isSome = true :=
      cellOf_isSome_of_noNulls t hnn "open"
        (hasCol_of_reqClean t hreq (by decide)) hr
    have hno : (t.cellOf r "open").isNone = false := by
      cases hc : t.cellOf r "open"
      · rw [hc] at hop
        exact absurd hop (by decide)
      · rfl
    simp [ohlcAllNa, priceCols, hno]
  unfold dropNoBar
  rw [hfil]

/-- The final null-row drop keeps every row of a table with no nulls. -/
theorem dropnaAll_of_noNulls (t : Table) (hnn : noNulls t = true) :
    dropnaAll t = t := by
  have hfil : t.rows.filter (fun r =>
      (List.range t.cols.length).all (fun i => (cellAt r i).isSome)) = t.rows := by
    apply List.filter_eq_self.mpr
    intro r hr
    rw [List.all_eq_true]
    intro i hi
    exact cellAt_isSome_of_noNulls t hnn hr (List.mem_range.mp hi)
  unfold dropnaAll
  rw [hfil]

/-- A table with no nulls has zero missingness. -/
theorem missingness_ratio_of_noNulls (t : Table) (hnn : noNulls t = true) :
    missingness_ratio t = 0 := by
  have hcount : t.nullCount = 0 := by
    rw [Table.nullCount]
    apply List.sum_eq_zero
    intro x hx
    obtain ⟨r, hr, rfl⟩ := List.mem_map.mp hx
    rw [nullCountRow, List.length_eq_zero, List.filter_eq_nil_iff]
    intro i hi
    have h3 := cellAt_isSome_of_noNulls t hnn hr (List.mem_range.mp hi)
    cases hc : cellAt r i
    · rw [hc] at h3
      exact absurd h3 (by decide)
    · simp
  rw [missingness_ratio]
  split
  · rfl
  · rw [hcount]
    exact Q.zero_divQ _

/-- Zero-filling volume changes nothing when no cell is null. -/
theorem fillVolume0_of_noNulls (t : Table) (hnn : noNulls t = true) :
    fillVolume0 t = t := by
  unfold fillVolume0
  cases hv : t.colIdx volumeCol with
  | none => rfl
  | some i =>
    have hlt : i < t.cols.length := colIdx_lt_of_eq_some t volumeCol hv
    have hrows : ∀ r ∈ t.rows, (r.mapIdx (fun j c =>
        if j == i && c.isNone then some (CellVal.num 0) else c)) = r := by
      intro r hr
      apply mapIdx_id_of
      intro j c hc
      by_cases hj : j = i
      · subst hj
        have hs : (cellAt r j).isSome = true := cellAt_isSome_of_noNulls t hnn hr hlt
        have hcc : cellAt r j = c := by
          unfold cellAt
          rw [hc]
          rfl
        rw [hcc] at hs
        have hno : c.isNone = false := by
          cases c
          · exact absurd hs (by decide)
          · rfl
        simp [hno]
      · simp [hj]
    show ({ t with rows := t.rows.map (fun r => r.mapIdx (fun j c =>
        if j == i && c.isNone then some (CellVal.num 0) else c)) } : Table) = t
    rw [List.map_congr_left hrows,
      show (List.map (fun r => r) t.rows) = List.map id t.rows from rfl,
      List.map_id]

/-- Numeric group imputation changes nothing when no cell is null. -/
theorem fillNumCols_of_noNulls (self : MissingData) (t : Table)
    (hnn : noNulls t = true) : fillNumCols self t = t := by
  have hrows : ∀ r ∈ t.rows, (r.mapIdx (fun j c =>
      if (numColIdxs t).contains j && c.isNone then
        match groupStat self t j (keyStr t r) with
        | some q => some (CellVal.num q)
        | Option.none => Option.none
      else c)) = r := by
    intro r hr
    apply mapIdx_id_of
    intro j c hc
    cases hj : (numColIdxs t).contains j with
    | false => simp [hj]
    | true =>
      have hjmem : j ∈ numColIdxs t := List.mem_of_elem_eq_true hj
      have hjlt : j < t.cols.length := by
        unfold numColIdxs at hjmem
        exact List.mem_range.mp (List.mem_filter.mp hjmem).1
      have hs : (cellAt r j).isSome = true := cellAt_isSome_of_noNulls t hnn hr hjlt
      have hcc : cellAt r j = c := by
        unfold cellAt
        rw [hc]
        rfl
      rw [hcc] at hs
      have hno : c.isNone = false := by
        cases c
        · exact absurd hs (by decide)
        · rfl
      simp [hno]
  simp only [fillNumCols]
  rw [List.map_congr_left hrows,
    show (List.map (fun r => r) t.rows) = List.map id t.rows from rfl,
    List.map_id]

/-- Text mode imputation changes nothing when no cell is null. -/
theorem fillCatCols_of_noNulls (t : Table) (hnn : noNulls t = true) :
    fillCatCols t = t := by
  have hrows : ∀ r ∈ t.rows, (r.mapIdx (fun j c =>
      if (catColIdxs t).contains j && c.isNone then
        match modeStr (colGroupStrs t j (keyStr t r)) with
        | some s => some (CellVal.str s)
        | Option.none => Option.none
      else c)) = r := by
    intro r hr
    apply mapIdx_id_of
    intro j c hc
    cases hj : (catColIdxs t).contains j with
    | false => simp [hj]
    | true =>
      have hjmem : j ∈ catColIdxs t := List.mem_of_elem_eq_true hj
      have hjlt : j < t.cols.length := by
        unfold catColIdxs at hjmem
        exact List.mem_range.mp (List.mem_filter.mp hjmem).1
      have hs : (cellAt r j).isSome = true := cellAt_isSome_of_noNulls t hnn hr hjlt
      have hcc : cellAt r j = c := by
        unfold cellAt
        rw [hc]
        rfl
      rw [hcc] at hs
      have hno : c.isNone = false := by
        cases c
        · exact absurd hs (by decide)
        · rfl
      simp [hno]
  simp only [fillCatCols]
  rw [List.map_congr_left hrows,
    show (List.map (fun r => r) t.rows) = List.map id t.rows from rfl,
    List.map_id]

/-- Sorting by `(ticker, date)` preserves the no-null invariant. -/
theorem noNulls_sortByKey (t : Table) (hnn : noNulls t = true) :
    noNulls (sortByKey t) = true := by
  rw [noNulls, List.all_eq_true]
  intro r hr
  rw [noNulls, List.all_eq_true] at hnn
  exact hnn r ((perm_insSort (rowLe t) t.rows).mem_iff.mp hr)

/-- On a null-free working frame the normal branch only (possibly) sorts:
zero-fill, imputation and the final null-drop all keep every cell, and the
`(ticker, date)` sort fires exactly when some imputable numeric column
exists. -/
theorem normalSteps_cur_of_noNulls (self : MissingData) (s : PSt)
    (hnn : noNulls s.cur = true) :
    (normalSteps self s).cur =
      if (numColIdxs s.cur).isEmpty then s.cur else sortByKey s.cur := by
  cases hemp : (numColIdxs s.cur).isEmpty with
  | true =>
    simp only [normalSteps, rebind, inplace]
    simp [hemp, fillVolume0_of_noNulls s.cur hnn, fillCatCols_of_noNulls s.cur hnn,
      dropnaAll_of_noNulls s.cur hnn]
  | false =>
    simp only [normalSteps, rebind, inplace]
    simp [hemp, fillVolume0_of_noNulls s.cur hnn,
      fillNumCols_of_noNulls self (sortByKey s.cur) (noNulls_sortByKey s.cur hnn),
      fillCatCols_of_noNulls (sortByKey s.cur) (noNulls_sortByKey s.cur hnn),
      dropnaAll_of_noNulls (sortByKey s.cur) (noNulls_sortByKey s.cur hnn)]

/-- C5.  Cleaning a table with zero nulls under partial-price policy `none`
(stated, as in every real configuration, for a date column already
date-typed and a positive threshold) keeps every row, column and cell value,
but it is the identity only when no imputable numeric column exists: when
one does (any real OHLCV table has `volume`), the normal branch re-sorts the
rows by `(ticker, date)` before imputing, so the result is the sorted table,
not the input verbatim. -/
theorem C5_policy_none_sorts_amended (self : MissingData) (t : Table)
    (hpol : self.price_policy = PricePolicy.none)
    (hthr : (0 : Q) < self.high_missing_threshold)
    (hnn : noNulls t = true)
    (hco : coerceDates t = t)
    (hreq : reqCleanMissing t = false) :
    self.clean t =
      Except.ok (if (numColIdxs t).isEmpty then t else sortByKey t) := by
  unfold MissingData.clean MissingData.cleanFull
  simp only [hreq, Bool.false_eq_true, if_false]
  show Except.ok (self.cleanSt t).cur = _
  simp only [MissingData.cleanSt, rebind, inplace, id_eq]
  rw [hco, dropKeyNa_of_noNulls t hnn hreq, missingness_ratio_of_noNulls t hnn,
    dropNoBar_of_noNulls t hnn hreq]
  rw [if_neg (Q.not_le_zero_of_pos hthr)]
  simp only [policySteps, hpol]
  rw [normalSteps_cur_of_noNulls self]
  exact hnn

/-- Witness for C5: the fully populated but unsorted two-row table under
policy `none` comes back as its `(ticker, date)`-sorted counterpart — the
volume column is an imputable numeric column, so the sort branch fires. -/
theorem C5_policy_none_sorts_amended_witness :
    (mdNone.price_policy = PricePolicy.none ∧
      (0 : Q) < mdNone.high_missing_threshold ∧
      noNulls exUnsorted = true ∧
      coerceDates exUnsorted = exUnsorted ∧
      reqCleanMissing exUnsorted = false) ∧
    mdNone.clean exUnsorted = Except.ok
      (if (numColIdxs exUnsorted).isEmpty then exUnsorted else sortByKey exUnsorted) ∧
    (numColIdxs exUnsorted).isEmpty = false ∧
    sortByKey exUnsorted = exSorted :=
  ⟨⟨rfl, by decide, by decide, by decide, by decide⟩,
    C5_policy_none_sorts_amended mdNone exUnsorted rfl (by decide) (by decide)
      (by decide) (by decide),
    by decide, by decide⟩
